import Mathlib

/-! # libcalico-go: BGP configuration update processor and v1 → v3 IP pool conversion

A shallow embedding of

* `lib/backend/syncersv1/updateprocessors/bgpconfigprocessor.go`
* `lib/apis/v3/bgpconfig.go`
* `lib/upgrade/etcd/conversionv1v3/ippool.go`

Go strings are modelled by Lean strings (sequences of Unicode code points, that is,
the Go strings that hold valid UTF-8).  A Go `interface{}` result that is either `nil`
or a value is an `Option`.
-/

namespace Calico

/-! ## The parts of the Go standard library the code calls -/

/-- The rune mapping `unicode.ToLower`, as far as a comparison of the result with an ASCII
literal can observe it: `A`..`Z` go to `a`..`z`, and the only two code points outside ASCII
whose lower case is an ASCII letter are U+0130 (to `i`) and U+212A (to `k`).  Every other code
point outside ASCII has a lower case outside ASCII and is kept as it is. -/
def unicodeToLower (c : Char) : Char :=
  if c = Char.ofNat 0x130 then 'i'
  else if c = Char.ofNat 0x212A then 'k'
  else c.toLower

/-- Go `strings.ToLower`: the rune mapping applied to every rune of the string. -/
def ToLower (s : String) : String :=
  String.mk (s.data.map unicodeToLower)

/-- Case-insensitive equality of two strings: they are equal once both are lower-cased. -/
def equalsIgnoreCase (s t : String) : Prop :=
  ToLower s = ToLower t

instance (s t : String) : Decidable (equalsIgnoreCase s t) := by
  unfold equalsIgnoreCase; infer_instance

/-! ## `bgpconfigprocessor.go` -/

/-- Bird log level: `debug`, `info` and the empty string are kept (lower-cased), every other
value becomes `none`. -/
def logLevelToBirdLogLevel (value : String) : String :=
  let l := ToLower value
  if l = "" ∨ l = "debug" ∨ l = "info" then l else "none"

def nodeToNodeMeshEnabled : String := "\x7b\"enabled\":true\x7d"

def nodeToNodeMeshDisabled : String := "\x7b\"enabled\":false\x7d"

/-- The v1 wrapping of the node mesh flag in a JSON literal. -/
def nodeMeshToString (value : Bool) : String :=
  if value then nodeToNodeMeshEnabled else nodeToNodeMeshDisabled

/-- Reading a node mesh literal back by literal string match. -/
def nodeMeshFromString (s : String) : Option Bool :=
  if s = nodeToNodeMeshEnabled then some true
  else if s = nodeToNodeMeshDisabled then some false
  else none

/-- Go `strings.Join`: nothing for no element, the element itself for one, and otherwise the
first element followed by separator and element for each of the remaining ones. -/
def Join (elems : List String) (sep : String) : String :=
  match elems with
  | [] => ""
  | [e] => e
  | e :: rest => rest.foldl (fun b s => b ++ sep ++ s) e

/-- A single whitelisted CIDR external IP block (`lib/apis/v3/bgpconfig.go`). -/
structure ServiceExternalIPBlock where
  CIDR : String
  deriving DecidableEq, Repr

/-- A single whitelisted CIDR block for cluster IPs (`lib/apis/v3/bgpconfig.go`). -/
structure ServiceClusterIPBlock where
  CIDR : String
  deriving DecidableEq, Repr

/-- Unpacks the external IP blocks: `nil` for no block, otherwise the collected CIDRs joined
with a comma. -/
def svcExternalIpsToString (ipBlocks : List ServiceExternalIPBlock) : Option String :=
  if ipBlocks.length = 0 then none
  else
    let ipCidrs := ipBlocks.foldl (fun acc ipBlock => acc ++ [ipBlock.CIDR]) []
    some (Join ipCidrs ",")

/-- Unpacks the cluster IP blocks: `nil` for no block, otherwise the collected CIDRs joined
with a comma. -/
def svcClusterIpsToString (ipBlocks : List ServiceClusterIPBlock) : Option String :=
  if ipBlocks.length = 0 then none
  else
    let ipCidrs := ipBlocks.foldl (fun acc ipBlock => acc ++ [ipBlock.CIDR]) []
    some (Join ipCidrs ",")

/-- Community value and its name (`lib/apis/v3/bgpconfig.go`); both fields carry the JSON
option `omitempty`, under the keys `name` and `value`. -/
structure CommunityKVPair where
  Name : String
  Value : String
  deriving DecidableEq, Repr

/-- Communities to apply to the routes of a prefix (`lib/apis/v3/bgpconfig.go`); both fields
carry the JSON option `omitempty`, under the keys `cidr` and `communities`. -/
structure PrefixAdvertisements where
  CIDR : String
  Communities : List String
  deriving DecidableEq, Repr

/-! ### `encoding/json`

`json.Marshal` is part of the Go standard library.  Its layout of slices and structs is
modelled below, in the way the encoder writes its buffer.  How one Go string becomes a JSON
string literal (quotes and escapes) is left open: it is the argument `str` of the encoders. -/

/-- The slice encoder of `encoding/json` for a slice that is not `nil`: an opening bracket, the
encoded elements with a comma before every element but the first, a closing bracket. -/
def arrayEncoder {α : Type} (elemEnc : α → String) (v : List α) : String :=
  v.enum.foldl (fun e ix => (if ix.1 > 0 then e ++ "," else e) ++ elemEnc ix.2) "[" ++ "]"

/-- One step of the struct encoder of `encoding/json`: a field that is `omitempty` and empty is
skipped; otherwise the pending delimiter, the quoted key with a colon and the encoded value are
written, and the pending delimiter becomes a comma. -/
def structField (st : String × String) (empty : Bool) (key : String) (val : String) :
    String × String :=
  if empty then st else (st.1 ++ st.2 ++ "\"" ++ key ++ "\":" ++ val, ",")

/-- The end of the struct encoder of `encoding/json`: an object without fields is written
as a pair of braces, any other object is closed. -/
def structEnd (st : String × String) : String :=
  if st.2 = "\x7b" then st.1 ++ "\x7b\x7d" else st.1 ++ "\x7d"

/-- The struct encoder of `encoding/json` at `CommunityKVPair`. -/
def encodeCommunityKVPair (str : String → String) (c : CommunityKVPair) : String :=
  let st : String × String := ("", "\x7b")
  let st := structField st (c.Name.length = 0) "name" (str c.Name)
  let st := structField st (c.Value.length = 0) "value" (str c.Value)
  structEnd st

/-- The struct encoder of `encoding/json` at `PrefixAdvertisements`. -/
def encodePrefixAdvertisements (str : String → String) (pa : PrefixAdvertisements) : String :=
  let st : String × String := ("", "\x7b")
  let st := structField st (pa.CIDR.length = 0) "cidr" (str pa.CIDR)
  let st := structField st (pa.Communities.length = 0) "communities"
    (arrayEncoder str pa.Communities)
  structEnd st

/-- The call `json.Marshal(v)` for a slice `v` that is not `nil`, with the encoder of its
elements.  Strings, slices of strings and structs of these are always encodable, so the
call returns its text and no error. -/
def Marshal {α : Type} (elemEnc : α → String) (v : List α) : Except String String :=
  Except.ok (arrayEncoder elemEnc v)

/-- JSON encoded string of the community pairs (the text of the byte slice that is returned):
`nil` for no pair and for an encoding error. -/
def communitiesToString (str : String → String) (communities : List CommunityKVPair) :
    Option String :=
  if communities.length = 0 then none
  else
    match Marshal (encodeCommunityKVPair str) communities with
    | Except.error _ => none
    | Except.ok communitiesStr => some communitiesStr

/-- JSON encoded string of the prefix advertisements (the text of the byte slice that is
returned): `nil` for no advertisement and for an encoding error. -/
def prefixAdvertisementsToString (str : String → String) (pa : List PrefixAdvertisements) :
    Option String :=
  if pa.length = 0 then none
  else
    match Marshal (encodePrefixAdvertisements str) pa with
    | Except.error _ => none
    | Except.ok paStr => some paStr

/-! ### JSON text, as the specification describes it -/

/-- The text of a JSON array with the given element texts. -/
def jsonArray (items : List String) : String :=
  "[" ++ ",".intercalate items ++ "]"

/-- The text of a JSON object with the given members (key and value text). -/
def jsonObject (members : List (String × String)) : String :=
  "\x7b" ++ ",".intercalate (members.map (fun m => "\"" ++ m.1 ++ "\":" ++ m.2)) ++ "\x7d"

/-- The members of the object for a community pair: the fields that are not empty. -/
def communityMembers (str : String → String) (c : CommunityKVPair) : List (String × String) :=
  (if c.Name = "" then [] else [("name", str c.Name)]) ++
  (if c.Value = "" then [] else [("value", str c.Value)])

/-- The members of the object for a prefix advertisement: the fields that are not empty. -/
def prefixAdvertisementMembers (str : String → String) (pa : PrefixAdvertisements) :
    List (String × String) :=
  (if pa.CIDR = "" then [] else [("cidr", str pa.CIDR)]) ++
  (if pa.Communities = [] then [] else [("communities", jsonArray (pa.Communities.map str))])

/-- A plain quoting of strings without characters to escape, to run the encoders with. -/
def quotePlain (s : String) : String := "\"" ++ s ++ "\""

/-- The listen port (a `uint16`) is passed on unless it is zero. -/
def listenPortToString (listenPort : Nat) : Option Nat :=
  if listenPort = 0 then none else some listenPort


/-- The characters between the occurrences of `sep`: Go `strings.Split` for a separator of one
character, on the characters of the string.  There is one piece more than there are
separators, so the empty string has the one piece that is empty. -/
def splitChars (sep : Char) : List Char → List (List Char)
  | [] => [[]]
  | c :: s =>
    if c = sep then [] :: splitChars sep s
    else
      match splitChars sep s with
      | [] => [[c]]
      | piece :: pieces => (c :: piece) :: pieces

/-- Go `strings.Split(s, sep)` for a separator of one character. -/
def Split (s : String) (sep : Char) : List String :=
  (splitChars sep s.data).map String.mk

/-- One field of a Go struct type as reflection shows it: its name and its `confignamev1`
tag. -/
structure StructField where
  Name : String
  confignamev1 : String
  deriving DecidableEq, Repr

/-- The fields of `BGPConfigurationSpec` (`lib/apis/v3/bgpconfig.go`) in declaration order,
that is `reflect.TypeOf(apiv3.BGPConfigurationSpec{})`. -/
def BGPConfigurationSpec.fields : List StructField :=
  [ { Name := "LogSeverityScreen", confignamev1 := "loglevel" },
    { Name := "NodeToNodeMeshEnabled", confignamev1 := "node_mesh" },
    { Name := "ASNumber", confignamev1 := "as_num" },
    { Name := "ServiceExternalIPs", confignamev1 := "svc_external_ips" },
    { Name := "ServiceClusterIPs", confignamev1 := "svc_cluster_ips" },
    { Name := "Communities", confignamev1 := "communities" },
    { Name := "PrefixAdvertisements", confignamev1 := "prefix_advertisements" },
    { Name := "ListenPort", confignamev1 := "listen_port" } ]

/-- The wire tags that `BGPConfigurationSpec` declares. -/
def BGPConfigurationSpec.tags : List String :=
  BGPConfigurationSpec.fields.map (fun f => f.confignamev1)

/-- The function values of type `ConfigFieldValueToV1ModelValue` that this file declares, by
name. -/
inductive ConfigFieldValueToV1ModelValue where
  | logLevelToBirdLogLevel
  | nodeMeshToString
  | svcExternalIpsToString
  | svcClusterIpsToString
  | communitiesToString
  | prefixAdvertisementsToString
  | listenPortToString
  deriving DecidableEq, Repr

/-- The rule table that `NewBGPConfigUpdateProcessor` hands to `NewConfigUpdateProcessor`: the
entries of the map literal, in the order they are written. -/
def NewBGPConfigUpdateProcessor.rules : List (String × ConfigFieldValueToV1ModelValue) :=
  [ ("loglevel", ConfigFieldValueToV1ModelValue.logLevelToBirdLogLevel),
    ("node_mesh", ConfigFieldValueToV1ModelValue.nodeMeshToString),
    ("svc_external_ips", ConfigFieldValueToV1ModelValue.svcExternalIpsToString),
    ("svc_cluster_ips", ConfigFieldValueToV1ModelValue.svcClusterIpsToString),
    ("communities", ConfigFieldValueToV1ModelValue.communitiesToString),
    ("prefix_advertisements", ConfigFieldValueToV1ModelValue.prefixAdvertisementsToString),
    ("listen_port", ConfigFieldValueToV1ModelValue.listenPortToString) ]

/-- The keys of the rule table. -/
def NewBGPConfigUpdateProcessor.keys : List String :=
  NewBGPConfigUpdateProcessor.rules.map Prod.fst

/-- The rule registered for a wire tag, when there is one (the map lookup). -/
def NewBGPConfigUpdateProcessor.rule (tag : String) : Option ConfigFieldValueToV1ModelValue :=
  NewBGPConfigUpdateProcessor.rules.lookup tag

/-! ## `conversionv1v3/ippool.go` -/

/-- Modelled from the spec: the type `cnet.IPNet` of package `lib/net`, which is not among the
sources.  The converter reads a CIDR only through its `String()` form (the CIDR string of
the specification), so a CIDR is modelled by that string. -/
structure IPNet where
  text : String
  deriving DecidableEq, Repr

/-- The CIDR string of an `IPNet`. -/
def IPNet.String (cidr : IPNet) : String := cidr.text

/-- Go `strings.Replace` on the characters of the string, for a pattern `old` and a
replacement `new` of one character each and a count `n` that is not negative: the first `n`
occurrences of `old`, from the left, are replaced. -/
def replaceChars (old new : Char) : Nat → List Char → List Char
  | 0, s => s
  | _ + 1, [] => []
  | n + 1, c :: s =>
    if c = old then new :: replaceChars old new n s
    else c :: replaceChars old new (n + 1) s

/-- Go `strings.Replace(s, old, new, n)` for one-character `old` and `new` and `0 ≤ n`. -/
def Replace (s : String) (old new : Char) (n : Nat) : String :=
  String.mk (replaceChars old new n s.data)

/-- The resource name of a CIDR: dots, colons and the slash become dashes, up to three,
seven and one of them (the logging of the result is not modelled). -/
def cidrToName (cidr : IPNet) : String :=
  let name := Replace cidr.String '.' '-' 3
  let name := Replace name ':' '-' 7
  let name := Replace name '/' '-' 1
  name

/-- The number of occurrences of the character `c` before position `i`. -/
def occursBefore (s : List Char) (i : Nat) (c : Char) : Nat := (s.take i).count c

/-- The character `c` at position `i` of `s` is one of the first three dots, of the first
seven colons, or the first slash. -/
def replacedAt (s : List Char) (i : Nat) (c : Char) : Prop :=
  (c = '.' ∧ occursBefore s i '.' < 3) ∨ (c = ':' ∧ occursBefore s i ':' < 7) ∨
  (c = '/' ∧ occursBefore s i '/' < 1)

instance (s : List Char) (i : Nat) (c : Char) : Decidable (replacedAt s i c) := by
  unfold replacedAt; infer_instance


/-- The type `ipip.Mode` of package `lib/ipip`: a string. -/
abbrev ipip.Mode := String

/-- The IPIP section of a v1 IP pool (`lib/apis/v1`). -/
structure apiv1.IPIPConfiguration where
  Enabled : Bool
  Mode : ipip.Mode
  deriving DecidableEq, Repr

/-- The fields of the v1 `IPPoolSpec` that the converter reads; `IPIP` is a pointer that may
be `nil`. -/
structure apiv1.IPPoolSpec where
  IPIP : Option apiv1.IPIPConfiguration
  NATOutgoing : Bool
  Disabled : Bool
  deriving DecidableEq, Repr

structure apiv1.IPPoolMetadata where
  CIDR : IPNet
  deriving DecidableEq, Repr

/-- The v1 `IPPool` resource. -/
structure apiv1.IPPool where
  Metadata : apiv1.IPPoolMetadata
  Spec : apiv1.IPPoolSpec
  deriving DecidableEq, Repr

/-- A value of the interface `unversioned.Resource`, by its dynamic kind: a pointer to a v1
`IPPool`, or anything else. -/
inductive Resource where
  | ippool (p : apiv1.IPPool)
  | other (kind : String)
  deriving DecidableEq, Repr

structure model.IPPoolKey where
  CIDR : IPNet
  deriving DecidableEq, Repr

/-- The backend `IPPool` value (`lib/backend/model`). -/
structure model.IPPool where
  CIDR : IPNet
  IPIPInterface : String
  IPIPMode : ipip.Mode
  Masquerade : Bool
  IPAM : Bool
  Disabled : Bool
  deriving DecidableEq, Repr

/-- The `Value` of a key/value pair, by its dynamic kind: a pointer to a backend `IPPool`, or
anything else. -/
inductive model.Value where
  | ippool (pool : model.IPPool)
  | other (kind : String)
  deriving DecidableEq, Repr

structure model.KVPair where
  Key : model.IPPoolKey
  Value : model.Value
  deriving DecidableEq, Repr

/-- The type `apiv3.IPIPMode`, a string type of `lib/apis/v3` with three named constants;
`unset` stands for its zero value, which is none of the three. -/
inductive apiv3.IPIPMode where
  | unset
  | IPIPModeNever
  | IPIPModeCrossSubnet
  | IPIPModeAlways
  deriving DecidableEq, Repr

/-- The fields of the v3 `IPPoolSpec` that the converter sets. -/
structure apiv3.IPPoolSpec where
  CIDR : String
  IPIPMode : apiv3.IPIPMode
  NATOutgoing : Bool
  Disabled : Bool
  deriving DecidableEq, Repr

/-- The v3 `IPPool` resource: its name and its spec (type metadata is not modelled). -/
structure apiv3.IPPool where
  Name : String
  Spec : apiv3.IPPoolSpec
  deriving DecidableEq, Repr

/-- A new, zeroed v3 `IPPool`. -/
def apiv3.NewIPPool : apiv3.IPPool :=
  { Name := "", Spec := { CIDR := "", IPIPMode := apiv3.IPIPMode.unset,
                          NATOutgoing := false, Disabled := false } }

/-- What a call of a converter step does: it returns a value with a `nil` error, it returns
no value with an error, or it does not return because the goroutine panics. -/
inductive Outcome (α : Type) where
  | ok (value : α)
  | error (msg : String)
  | panics (msg : String)
  deriving DecidableEq, Repr

/-- The v1 IP pool as a backend key/value pair.  The type assertion on the resource has one
result only, so it panics when the resource is not a v1 `IPPool`. -/
def IPPool.APIV1ToBackendV1 (rIn : Resource) : Outcome model.KVPair :=
  match rIn with
  | Resource.other kind =>
    Outcome.panics ("interface conversion: unversioned.Resource is " ++ kind ++ ", not *v1.IPPool")
  | Resource.ippool p =>
    let (ipipInterface, ipipMode) : String × ipip.Mode :=
      match p.Spec.IPIP with
      | some cfg => (if cfg.Enabled then "tunl0" else "", cfg.Mode)
      | none => ("", "")
    let d : model.KVPair :=
      { Key := { CIDR := p.Metadata.CIDR },
        Value := model.Value.ippool
          { CIDR := p.Metadata.CIDR,
            IPIPInterface := ipipInterface,
            IPIPMode := ipipMode,
            Masquerade := p.Spec.NATOutgoing,
            IPAM := !p.Spec.Disabled,
            Disabled := p.Spec.Disabled } }
    Outcome.ok d

/-- The v3 IPIP mode from the v1 mode text and tunnel interface. -/
def convertIPIPMode (mode : ipip.Mode) (ipipInterface : String) : apiv3.IPIPMode :=
  let ipipMode := ToLower mode
  if ipipInterface = "" then apiv3.IPIPMode.IPIPModeNever
  else if ipipMode = "cross-subnet" then apiv3.IPIPMode.IPIPModeCrossSubnet
  else apiv3.IPIPMode.IPIPModeAlways

/-- The backend key/value pair as a v3 IP pool; an error when the value is not a backend
`IPPool`. -/
def IPPool.BackendV1ToAPIV3 (kvp : model.KVPair) : Outcome apiv3.IPPool :=
  match kvp.Value with
  | model.Value.other _ => Outcome.error "value is not a valid IPPool resource Value"
  | model.Value.ippool pool =>
    let ipp := apiv3.NewIPPool
    let ipp := { ipp with Name := cidrToName pool.CIDR }
    let ipp := { ipp with Spec :=
      { CIDR := pool.CIDR.String,
        IPIPMode := convertIPIPMode pool.IPIPMode pool.IPIPInterface,
        NATOutgoing := pool.Masquerade,
        Disabled := pool.Disabled } }
    Outcome.ok ipp

/-- The two converter steps one after the other, as the migration runs them. -/
def migrate (rIn : Resource) : Outcome apiv3.IPPool :=
  match IPPool.APIV1ToBackendV1 rIn with
  | Outcome.ok kvp => IPPool.BackendV1ToAPIV3 kvp
  | Outcome.error msg => Outcome.error msg
  | Outcome.panics msg => Outcome.panics msg

/-! ### Canonical CIDR strings -/

/-- The character map of a name when no limit is reached: separators become dashes. -/
def dash (c : Char) : Char :=
  if c = '.' ∨ c = ':' ∨ c = '/' then '-' else c

/-- Two neighbouring occurrences of the character `c`. -/
def hasAdjacent (c : Char) : List Char → Bool
  | x :: y :: r => (x = c && y = c) || hasAdjacent c (y :: r)
  | _ => false

/-- A field without separators and dashes. -/
def plain (f : List Char) : Prop :=
  ∀ x ∈ f, x ≠ '.' ∧ x ≠ ':' ∧ x ≠ '/' ∧ x ≠ '-'

/-- The body of an IPv6 address: no dot, slash or dash. -/
def colonBody (f : List Char) : Prop :=
  ∀ x ∈ f, x ≠ '.' ∧ x ≠ '/' ∧ x ≠ '-'

/-- The characters of `a.b.c.d/n`: five plain fields, the last four of them not empty. -/
def V4Shape (l : List Char) : Prop :=
  ∃ a b c d n : List Char, l = a ++ '.' :: (b ++ '.' :: (c ++ '.' :: (d ++ '/' :: n))) ∧
    plain a ∧ plain b ∧ plain c ∧ plain d ∧ plain n ∧ b ≠ [] ∧ c ≠ [] ∧ d ≠ [] ∧ n ≠ []

/-- The characters of an IPv6 CIDR string: a body of groups and colons, a slash, a plain
field; the body has seven colons or two neighbouring ones, and never more than seven. -/
def V6Shape (l : List Char) : Prop :=
  ∃ body n : List Char, l = body ++ '/' :: n ∧ colonBody body ∧ plain n ∧
    body.count ':' ≤ 7 ∧ (body.count ':' = 7 ∨ hasAdjacent ':' body = true)

/-- The name characters of a list of CIDR characters. -/
def nameChars (s : List Char) : List Char :=
  replaceChars '/' '-' 1 (replaceChars ':' '-' 7 (replaceChars '.' '-' 3 s))

/-- The list before and the list after the first occurrence of `sep`. -/
def splitFirst (sep : Char) : List Char → Option (List Char × List Char)
  | [] => none
  | c :: s =>
    if c = sep then some ([], s)
    else match splitFirst sep s with
      | none => none
      | some (a, r) => some (c :: a, r)

/-- A decimal field: one or more digits. -/
def isDecimal (f : List Char) : Bool :=
  !f.isEmpty && f.all Char.isDigit

/-- A hexadecimal digit, in either case. -/
def isHexChar (c : Char) : Bool :=
  c.isDigit || (decide ('a' ≤ c) && decide (c ≤ 'f')) || (decide ('A' ≤ c) && decide (c ≤ 'F'))

/-- The shape `a.b.c.d/n` of an IPv4 CIDR string, all five fields decimal. -/
def isIPv4CIDR (s : String) : Bool :=
  match splitFirst '.' s.data with
  | none => false
  | some (a, r1) =>
    match splitFirst '.' r1 with
    | none => false
    | some (b, r2) =>
      match splitFirst '.' r2 with
      | none => false
      | some (c, r3) =>
        match splitFirst '/' r3 with
        | none => false
        | some (d, n) => isDecimal a && isDecimal b && isDecimal c && isDecimal d && isDecimal n

/-- The shape of an IPv6 CIDR string: hexadecimal groups and colons, then a slash and a decimal
prefix length, where the address has either all eight groups (seven colons) or a `::`
compression (and at most seven colons). -/
def isIPv6CIDR (s : String) : Bool :=
  match splitFirst '/' s.data with
  | none => false
  | some (body, n) =>
    isDecimal n && body.all (fun c => isHexChar c || c == ':') &&
      decide (body.count ':' ≤ 7) && (decide (body.count ':' = 7) || hasAdjacent ':' body)

/-- The canonical CIDR strings, of either family. -/
def isCanonicalCIDR (s : String) : Bool :=
  isIPv4CIDR s || isIPv6CIDR s

/-! ## Properties of the field transforms -/

theorem foldl_append_singleton {α β : Type} (f : α → β) (l : List α) (acc : List β) :
    l.foldl (fun acc a => acc ++ [f a]) acc = acc ++ l.map f := by
  induction l generalizing acc with
  | nil => simp
  | cons a l ih => simp [ih]

theorem intercalate_go_eq_foldl (sep : String) (rest : List String) (acc : String) :
    String.intercalate.go acc sep rest = rest.foldl (fun b s => b ++ sep ++ s) acc := by
  induction rest generalizing acc with
  | nil => simp [String.intercalate.go]
  | cons a rest ih => simp [String.intercalate.go, ih]

theorem Join_eq_intercalate (elems : List String) (sep : String) :
    Join elems sep = sep.intercalate elems := by
  match elems with
  | [] => rfl
  | [e] => rfl
  | e :: f :: rest =>
    simp only [Join, String.intercalate]
    exact (intercalate_go_eq_foldl sep (f :: rest) e).symm

theorem length_eq_zero_iff (s : String) : s.length = 0 ↔ s = "" := by
  rcases s with ⟨l⟩
  cases l with
  | nil => simp [String.length]
  | cons a l =>
    simp only [String.length, List.length_cons]
    constructor
    · intro h; omega
    · intro h; exact absurd (congrArg String.data h) (by simp)

theorem foldl_sep_append (sep pre : String) (l : List String) (acc : String) :
    l.foldl (fun b s => b ++ sep ++ s) (pre ++ acc) =
      pre ++ l.foldl (fun b s => b ++ sep ++ s) acc := by
  induction l generalizing acc with
  | nil => rfl
  | cons a l ih =>
    simp only [List.foldl_cons]
    rw [String.append_assoc pre, String.append_assoc pre, ih]

theorem foldl_enumFrom_succ {α : Type} (elemEnc : α → String) (v : List α) (k : Nat)
    (acc : String) :
    (v.enumFrom (k + 1)).foldl (fun e ix => (if ix.1 > 0 then e ++ "," else e) ++ elemEnc ix.2) acc
      = (v.map elemEnc).foldl (fun b s => b ++ "," ++ s) acc := by
  induction v generalizing k acc with
  | nil => rfl
  | cons a v ih => simp [List.enumFrom_cons, ih]

/-- The slice encoder writes the JSON array of the encoded elements. -/
theorem arrayEncoder_eq {α : Type} (elemEnc : α → String) (v : List α) :
    arrayEncoder elemEnc v = jsonArray (v.map elemEnc) := by
  cases v with
  | nil => rfl
  | cons a v =>
    simp only [arrayEncoder, jsonArray, List.enum, List.enumFrom_cons, List.foldl_cons,
      List.map_cons, String.intercalate, intercalate_go_eq_foldl]
    rw [foldl_enumFrom_succ]
    simp [foldl_sep_append]

/-- The struct encoder at a community pair writes the JSON object of its members. -/
theorem encodeCommunityKVPair_eq (str : String → String) (c : CommunityKVPair) :
    encodeCommunityKVPair str c = jsonObject (communityMembers str c) := by
  simp only [encodeCommunityKVPair, communityMembers, jsonObject, structField, structEnd,
    length_eq_zero_iff]
  by_cases h1 : c.Name = "" <;> by_cases h2 : c.Value = "" <;>
    simp [h1, h2, String.intercalate, String.intercalate.go, ← String.append_assoc]
  apply String.ext
  simp [String.data_append]

/-- The struct encoder at a prefix advertisement writes the JSON object of its members. -/
theorem encodePrefixAdvertisements_eq (str : String → String) (pa : PrefixAdvertisements) :
    encodePrefixAdvertisements str pa = jsonObject (prefixAdvertisementMembers str pa) := by
  simp only [encodePrefixAdvertisements, prefixAdvertisementMembers, jsonObject, structField,
    structEnd, length_eq_zero_iff, List.length_eq_zero, arrayEncoder_eq]
  by_cases h1 : pa.CIDR = "" <;> by_cases h2 : pa.Communities = [] <;>
    simp [h1, h2, String.intercalate, String.intercalate.go, ← String.append_assoc]
  apply String.ext
  simp [String.data_append]

/-- C1: a severity that is not case-insensitively equal to the empty string, `debug` or `info`
is turned into exactly `none`; one that is case-insensitively equal to `debug` or `info`, or is
empty, is turned into its lower-cased form, which is `debug`, `info` or the empty string. -/
theorem logLevelToBirdLogLevel_spec (s : String) :
    ((¬ equalsIgnoreCase s "" ∧ ¬ equalsIgnoreCase s "debug" ∧ ¬ equalsIgnoreCase s "info") →
      logLevelToBirdLogLevel s = "none") ∧
    (equalsIgnoreCase s "debug" →
      logLevelToBirdLogLevel s = ToLower s ∧ logLevelToBirdLogLevel s = "debug") ∧
    (equalsIgnoreCase s "info" →
      logLevelToBirdLogLevel s = ToLower s ∧ logLevelToBirdLogLevel s = "info") ∧
    (s = "" → logLevelToBirdLogLevel s = ToLower s ∧ logLevelToBirdLogLevel s = "") := by
  have hd : ToLower "debug" = "debug" := by decide
  have hi : ToLower "info" = "info" := by decide
  have he : ToLower "" = "" := by decide
  refine ⟨?_, ?_, ?_, ?_⟩
  · rintro ⟨h1, h2, h3⟩
    simp only [equalsIgnoreCase, hd, hi, he] at h1 h2 h3
    simp [logLevelToBirdLogLevel, h1, h2, h3]
  · intro h
    simp only [equalsIgnoreCase, hd] at h
    simp [logLevelToBirdLogLevel, h]
  · intro h
    simp only [equalsIgnoreCase, hi] at h
    simp [logLevelToBirdLogLevel, h]
  · intro h
    subst h
    decide

theorem logLevelToBirdLogLevel_spec_witness :
    logLevelToBirdLogLevel "WARN" = "none" ∧
    (logLevelToBirdLogLevel "Debug" = ToLower "Debug" ∧ logLevelToBirdLogLevel "Debug" = "debug") ∧
    (logLevelToBirdLogLevel "INFO" = ToLower "INFO" ∧ logLevelToBirdLogLevel "INFO" = "info") ∧
    (logLevelToBirdLogLevel "" = ToLower "" ∧ logLevelToBirdLogLevel "" = "") :=
  ⟨(logLevelToBirdLogLevel_spec "WARN").1 (by decide),
   (logLevelToBirdLogLevel_spec "Debug").2.1 (by decide),
   (logLevelToBirdLogLevel_spec "INFO").2.2.1 (by decide),
   (logLevelToBirdLogLevel_spec "").2.2.2 rfl⟩

/-- C2: `nodeMeshToString` maps `true` and `false` to the two fixed literals, which are
distinct; it is one-to-one, its values are exactly the two literals, and reading the result
back by literal string match gives the boolean that was put in. -/
theorem nodeMeshToString_bijection :
    nodeMeshToString true = "\x7b\"enabled\":true\x7d" ∧
    nodeMeshToString false = "\x7b\"enabled\":false\x7d" ∧
    nodeToNodeMeshEnabled ≠ nodeToNodeMeshDisabled ∧
    Function.Injective nodeMeshToString ∧
    (∀ s : String, (∃ b, nodeMeshToString b = s) ↔
      (s = nodeToNodeMeshEnabled ∨ s = nodeToNodeMeshDisabled)) ∧
    (∀ b : Bool, nodeMeshFromString (nodeMeshToString b) = some b) := by
  have hne : nodeToNodeMeshEnabled ≠ nodeToNodeMeshDisabled := by decide
  refine ⟨rfl, rfl, hne, ?_, ?_, ?_⟩
  · intro a b h
    cases a <;> cases b <;> simp [nodeMeshToString] at h ⊢
    · exact absurd h.symm hne
    · exact absurd h hne
  · intro s
    constructor
    · rintro ⟨b, rfl⟩
      cases b <;> simp [nodeMeshToString]
    · rintro (h | h)
      · exact ⟨true, by simp [nodeMeshToString, h]⟩
      · exact ⟨false, by simp [nodeMeshToString, h]⟩
  · intro b
    cases b <;> decide

/-- C3: both CIDR list transforms return `nil` for the empty list and otherwise the CIDR
fields joined with a comma in input order; a list of one block gives that CIDR alone. -/
theorem svcIpsToString_spec :
    svcExternalIpsToString [] = none ∧ svcClusterIpsToString [] = none ∧
    (∀ l : List ServiceExternalIPBlock, l ≠ [] →
      svcExternalIpsToString l = some (",".intercalate (l.map (fun b => b.CIDR)))) ∧
    (∀ l : List ServiceClusterIPBlock, l ≠ [] →
      svcClusterIpsToString l = some (",".intercalate (l.map (fun b => b.CIDR)))) ∧
    (∀ b : ServiceExternalIPBlock, svcExternalIpsToString [b] = some b.CIDR) ∧
    (∀ b : ServiceClusterIPBlock, svcClusterIpsToString [b] = some b.CIDR) := by
  refine ⟨rfl, rfl, ?_, ?_, fun _ => rfl, fun _ => rfl⟩
  · intro l hl
    have hlen : l.length ≠ 0 := by simpa using hl
    simp [svcExternalIpsToString, hlen, foldl_append_singleton (fun b : ServiceExternalIPBlock => b.CIDR),
      Join_eq_intercalate]
  · intro l hl
    have hlen : l.length ≠ 0 := by simpa using hl
    simp [svcClusterIpsToString, hlen, foldl_append_singleton (fun b : ServiceClusterIPBlock => b.CIDR),
      Join_eq_intercalate]

theorem svcIpsToString_spec_witness :
    svcExternalIpsToString [⟨"10.0.0.0/24"⟩, ⟨"fd00::/8"⟩] = some "10.0.0.0/24,fd00::/8" ∧
    svcClusterIpsToString [⟨"10.96.0.0/12"⟩, ⟨"10.0.0.0/24"⟩] = some "10.96.0.0/12,10.0.0.0/24" :=
  ⟨(svcIpsToString_spec.2.2.1 [⟨"10.0.0.0/24"⟩, ⟨"fd00::/8"⟩] (by simp)).trans (by decide),
   (svcIpsToString_spec.2.2.2.1 [⟨"10.96.0.0/12"⟩, ⟨"10.0.0.0/24"⟩] (by simp)).trans (by decide)⟩

/-- C4: both JSON transforms return `nil` for the empty list; for a list that is not empty
they return (never `nil`) the JSON array with one object per element, in input order, whose
members are the fields that are not empty, under the keys `name` and `value` for a community
pair and `cidr` and `communities` (an array of strings) for a prefix advertisement. -/
theorem jsonTransforms_spec (str : String → String) :
    communitiesToString str [] = none ∧ prefixAdvertisementsToString str [] = none ∧
    (∀ l : List CommunityKVPair, l ≠ [] →
      communitiesToString str l
        = some (jsonArray (l.map (fun c => jsonObject (communityMembers str c)))) ∧
      communitiesToString str l ≠ none) ∧
    (∀ l : List PrefixAdvertisements, l ≠ [] →
      prefixAdvertisementsToString str l
        = some (jsonArray (l.map (fun pa => jsonObject (prefixAdvertisementMembers str pa)))) ∧
      prefixAdvertisementsToString str l ≠ none) ∧
    (∀ c : CommunityKVPair,
      ((communityMembers str c).map Prod.fst).Sublist ["name", "value"]) ∧
    (∀ pa : PrefixAdvertisements,
      ((prefixAdvertisementMembers str pa).map Prod.fst).Sublist ["cidr", "communities"]) ∧
    (∀ c : CommunityKVPair, c.Name ≠ "" → c.Value ≠ "" →
      communityMembers str c = [("name", str c.Name), ("value", str c.Value)]) ∧
    (∀ pa : PrefixAdvertisements, pa.CIDR ≠ "" → pa.Communities ≠ [] →
      prefixAdvertisementMembers str pa
        = [("cidr", str pa.CIDR), ("communities", jsonArray (pa.Communities.map str))]) := by
  refine ⟨rfl, rfl, ?_, ?_, ?_, ?_, ?_, ?_⟩
  · intro l hl
    have hlen : l.length ≠ 0 := by simpa using hl
    have h : communitiesToString str l
        = some (jsonArray (l.map (fun c => jsonObject (communityMembers str c)))) := by
      have hf : encodeCommunityKVPair str = fun c => jsonObject (communityMembers str c) :=
        funext (encodeCommunityKVPair_eq str)
      simp [communitiesToString, hlen, Marshal, arrayEncoder_eq, hf]
    exact ⟨h, by simp [h]⟩
  · intro l hl
    have hlen : l.length ≠ 0 := by simpa using hl
    have h : prefixAdvertisementsToString str l
        = some (jsonArray (l.map (fun pa => jsonObject (prefixAdvertisementMembers str pa)))) := by
      have hf : encodePrefixAdvertisements str
          = fun pa => jsonObject (prefixAdvertisementMembers str pa) :=
        funext (encodePrefixAdvertisements_eq str)
      simp [prefixAdvertisementsToString, hlen, Marshal, arrayEncoder_eq, hf]
    exact ⟨h, by simp [h]⟩
  · intro c
    by_cases h1 : c.Name = "" <;> by_cases h2 : c.Value = "" <;> simp [communityMembers, h1, h2]
  · intro pa
    by_cases h1 : pa.CIDR = "" <;> by_cases h2 : pa.Communities = [] <;>
      simp [prefixAdvertisementMembers, h1, h2]
  · intro c h1 h2
    simp [communityMembers, h1, h2]
  · intro pa h1 h2
    simp [prefixAdvertisementMembers, h1, h2]

theorem jsonTransforms_spec_witness :
    communitiesToString quotePlain [⟨"a", "65000:1"⟩, ⟨"b", "65000:2:3"⟩]
      = some "[\x7b\"name\":\"a\",\"value\":\"65000:1\"\x7d,\x7b\"name\":\"b\",\"value\":\"65000:2:3\"\x7d]" ∧
    prefixAdvertisementsToString quotePlain [⟨"10.0.0.0/24", ["a", "65000:7"]⟩]
      = some "[\x7b\"cidr\":\"10.0.0.0/24\",\"communities\":[\"a\",\"65000:7\"]\x7d]" ∧
    communityMembers quotePlain ⟨"a", "65000:1"⟩ = [("name", "\"a\""), ("value", "\"65000:1\"")] ∧
    prefixAdvertisementMembers quotePlain ⟨"10.0.0.0/24", ["a"]⟩
      = [("cidr", "\"10.0.0.0/24\""), ("communities", "[\"a\"]")] :=
  ⟨((jsonTransforms_spec quotePlain).2.2.1 [⟨"a", "65000:1"⟩, ⟨"b", "65000:2:3"⟩]
      (by simp)).1.trans (by decide),
   ((jsonTransforms_spec quotePlain).2.2.2.1 [⟨"10.0.0.0/24", ["a", "65000:7"]⟩]
      (by simp)).1.trans (by decide),
   ((jsonTransforms_spec quotePlain).2.2.2.2.2.2.1 ⟨"a", "65000:1"⟩ (by decide) (by decide)).trans
      (by decide),
   ((jsonTransforms_spec quotePlain).2.2.2.2.2.2.2 ⟨"10.0.0.0/24", ["a"]⟩ (by decide)
      (by decide)).trans (by decide)⟩

/-- C5: the listen port transform returns `nil` exactly for port zero, and every other port
(so every other 16-bit port) is returned as the number it is. -/
theorem listenPortToString_spec (p : Nat) :
    (listenPortToString p = none ↔ p = 0) ∧ (p ≠ 0 → listenPortToString p = some p) := by
  unfold listenPortToString
  by_cases h : p = 0 <;> simp [h]

theorem listenPortToString_spec_witness : listenPortToString 179 = some 179 :=
  (listenPortToString_spec 179).2 (by decide)

/-! ## Properties of the IP pool conversion -/

theorem replaceChars_length (old new : Char) (n : Nat) (s : List Char) :
    (replaceChars old new n s).length = s.length := by
  induction s generalizing n with
  | nil => cases n <;> simp [replaceChars]
  | cons c s ih =>
    cases n with
    | zero => simp [replaceChars]
    | succ n =>
      simp only [replaceChars]
      split <;> simp [ih]

theorem replaceChars_getElem? (old new : Char) (n : Nat) (s : List Char) (i : Nat) :
    (replaceChars old new n s)[i]? =
      s[i]?.map (fun c => if c = old ∧ (s.take i).count old < n then new else c) := by
  induction s generalizing n i with
  | nil => cases n <;> simp [replaceChars]
  | cons c s ih =>
    cases n with
    | zero => simp [replaceChars]
    | succ n =>
      simp only [replaceChars]
      by_cases h : c = old
      · subst h
        cases i with
        | zero => simp
        | succ i => simp [ih]
      · cases i with
        | zero => simp [h]
        | succ i => simp [h, ih, List.count_cons]

theorem replaceChars_count_take (old new x : Char) (hx : x ≠ old) (hn : x ≠ new) (n : Nat)
    (s : List Char) (i : Nat) :
    ((replaceChars old new n s).take i).count x = (s.take i).count x := by
  induction s generalizing n i with
  | nil => cases n <;> simp [replaceChars]
  | cons c s ih =>
    cases n with
    | zero => simp [replaceChars]
    | succ n =>
      simp only [replaceChars]
      by_cases h : c = old
      · subst h
        cases i with
        | zero => simp
        | succ i => simp [ih, List.count_cons, Ne.symm hx, Ne.symm hn]
      · cases i with
        | zero => simp [h]
        | succ i => simp [h, ih, List.count_cons]

theorem replaceChars_utf8ByteSize (old new : Char) (h : old.utf8Size = new.utf8Size) (n : Nat)
    (s : List Char) :
    String.utf8Len (replaceChars old new n s) = String.utf8Len s := by
  induction s generalizing n with
  | nil => cases n <;> rfl
  | cons c s ih =>
    cases n with
    | zero => rfl
    | succ n =>
      simp only [replaceChars]
      by_cases hc : c = old
      · subst hc
        simp only [if_true, String.utf8Len_cons, ih, h]
      · simp only [hc, if_false, String.utf8Len_cons, ih]

theorem cidrToName_data (cidr : IPNet) :
    (cidrToName cidr).data =
      replaceChars '/' '-' 1 (replaceChars ':' '-' 7 (replaceChars '.' '-' 3 cidr.String.data)) :=
  rfl

theorem replaceChars3_getElem? (s : List Char) (i : Nat) :
    (replaceChars '/' '-' 1 (replaceChars ':' '-' 7 (replaceChars '.' '-' 3 s)))[i]? =
      s[i]?.map (fun c => if replacedAt s i c then '-' else c) := by
  rw [replaceChars_getElem?, replaceChars_getElem?, replaceChars_getElem?,
    replaceChars_count_take ':' '-' '/' (by decide) (by decide),
    replaceChars_count_take '.' '-' '/' (by decide) (by decide),
    replaceChars_count_take '.' '-' ':' (by decide) (by decide)]
  cases h : s[i]? with
  | none => rfl
  | some c =>
    simp only [Option.map_some', replacedAt, occursBefore]
    by_cases h1 : c = '.'
    · subst h1; by_cases h3 : List.count '.' (List.take i s) < 3 <;> simp [h3]
    · by_cases h2 : c = ':'
      · subst h2; by_cases h3 : List.count ':' (List.take i s) < 7 <;> simp [h3]
      · by_cases h4 : c = '/'
        · subst h4; by_cases h3 : List.count '/' (List.take i s) < 1 <;> simp [h3]
        · simp [h1, h2, h4]

/-- C6: the name has the length of the CIDR string, in characters and in bytes, and at every
position the character of the CIDR string, except that a dash stands where the CIDR string has
one of its first three dots, one of its first seven colons, or its first slash. -/
theorem cidrToName_spec (cidr : IPNet) :
    (cidrToName cidr).length = cidr.String.length ∧
    (cidrToName cidr).utf8ByteSize = cidr.String.utf8ByteSize ∧
    ∀ i : Nat, (cidrToName cidr).data[i]? =
      cidr.String.data[i]?.map (fun c => if replacedAt cidr.String.data i c then '-' else c) := by
  refine ⟨?_, ?_, ?_⟩
  · simp only [String.length, cidrToName_data, replaceChars_length]
  · have h : ∀ t : String, t.utf8ByteSize = String.utf8Len t.data := fun t => by
      rcases t with ⟨l⟩
      simp
    rw [h, h, cidrToName_data, replaceChars_utf8ByteSize _ _ (by decide),
      replaceChars_utf8ByteSize _ _ (by decide), replaceChars_utf8ByteSize _ _ (by decide)]
  · intro i
    rw [cidrToName_data, replaceChars3_getElem?]

theorem replaceChars_eq_map (old new : Char) (n : Nat) (s : List Char) (h : s.count old ≤ n) :
    replaceChars old new n s = s.map (fun c => if c = old then new else c) := by
  induction s generalizing n with
  | nil => cases n <;> rfl
  | cons c s ih =>
    by_cases hc : c = old
    · subst hc
      cases n with
      | zero => simp at h
      | succ n =>
        simp only [List.count_cons_self, Nat.add_le_add_iff_right] at h
        simp [replaceChars, ih n h]
    · have h' : s.count old ≤ n := by simpa [List.count_cons, hc] using h
      cases n with
      | zero =>
        have h0 : s.count old = 0 := by omega
        have hm : ∀ x ∈ (c :: s), x ≠ old := by
          intro x hx
          rcases List.mem_cons.mp hx with rfl | hx
          · exact hc
          · rintro rfl
            exact (List.count_eq_zero.mp h0) hx
        simp only [replaceChars]
        symm
        calc (c :: s).map (fun c => if c = old then new else c)
            = (c :: s).map id := List.map_congr_left (fun x hx => by simp [hm x hx])
          _ = c :: s := List.map_id _
      | succ n => simp [replaceChars, hc, ih (n + 1) h']

theorem replaceChars_count (old new x : Char) (hx : x ≠ old) (hn : x ≠ new) (n : Nat)
    (s : List Char) : (replaceChars old new n s).count x = s.count x := by
  have h := replaceChars_count_take old new x hx hn n s s.length
  rw [List.take_length] at h
  rw [← h, List.take_of_length_le (by rw [replaceChars_length])]

theorem replaceChars3_eq_map (s : List Char) (h1 : s.count '.' ≤ 3) (h2 : s.count ':' ≤ 7)
    (h3 : s.count '/' ≤ 1) :
    replaceChars '/' '-' 1 (replaceChars ':' '-' 7 (replaceChars '.' '-' 3 s)) = s.map dash := by
  have e1 := replaceChars_eq_map '.' '-' 3 s h1
  have c2 : (replaceChars '.' '-' 3 s).count ':' ≤ 7 := by
    rw [replaceChars_count '.' '-' ':' (by decide) (by decide)]; exact h2
  have e2 := replaceChars_eq_map ':' '-' 7 _ c2
  have c3 : (replaceChars ':' '-' 7 (replaceChars '.' '-' 3 s)).count '/' ≤ 1 := by
    rw [replaceChars_count ':' '-' '/' (by decide) (by decide),
      replaceChars_count '.' '-' '/' (by decide) (by decide)]; exact h3
  have e3 := replaceChars_eq_map '/' '-' 1 _ c3
  rw [e3, e2, e1, List.map_map, List.map_map]
  apply List.map_congr_left
  intro c _
  simp only [Function.comp, dash]
  by_cases a1 : c = '.'
  · subst a1; decide
  · by_cases a2 : c = ':'
    · subst a2; decide
    · by_cases a3 : c = '/'
      · subst a3; decide
      · simp [a1, a2, a3]
theorem dash_plain (f : List Char) (h : plain f) : f.map dash = f := by
  calc f.map dash = f.map id := List.map_congr_left (fun x hx => by
        have := h x hx
        simp [dash, this.1, this.2.1, this.2.2.1])
    _ = f := List.map_id _

theorem plain_not_mem (f : List Char) (h : plain f) :
    '.' ∉ f ∧ ':' ∉ f ∧ '/' ∉ f ∧ '-' ∉ f :=
  ⟨fun hm => (h _ hm).1 rfl, fun hm => (h _ hm).2.1 rfl, fun hm => (h _ hm).2.2.1 rfl,
   fun hm => (h _ hm).2.2.2 rfl⟩

theorem plain_count (f : List Char) (h : plain f) :
    f.count '.' = 0 ∧ f.count ':' = 0 ∧ f.count '/' = 0 ∧ f.count '-' = 0 := by
  obtain ⟨h1, h2, h3, h4⟩ := plain_not_mem f h
  exact ⟨List.count_eq_zero.mpr h1, List.count_eq_zero.mpr h2, List.count_eq_zero.mpr h3,
    List.count_eq_zero.mpr h4⟩

theorem colonBody_count (f : List Char) (h : colonBody f) :
    f.count '.' = 0 ∧ f.count '/' = 0 ∧ (f.map dash).count '-' = f.count ':' ∧
      '-' ∉ f := by
  refine ⟨List.count_eq_zero.mpr (fun hm => (h _ hm).1 rfl),
    List.count_eq_zero.mpr (fun hm => (h _ hm).2.1 rfl), ?_, fun hm => (h _ hm).2.2 rfl⟩
  induction f with
  | nil => rfl
  | cons x f ih =>
    have hx := h x (List.mem_cons_self _ _)
    have ih' := ih (fun y hy => h y (List.mem_cons_of_mem _ hy))
    by_cases hc : x = ':'
    · subst hc
      simp [dash, ih']
    · have hd : dash x = x := by simp [dash, hx.1, hx.2.1, hc]
      have hne : ¬ (x = '-') := hx.2.2
      simp only [List.map_cons, hd, List.count_cons, ih']
      simp [hne, hc]

theorem dash_injOn (l l' : List Char) (h : colonBody l) (h' : colonBody l')
    (e : l.map dash = l'.map dash) : l = l' := by
  induction l generalizing l' with
  | nil =>
    cases l' with
    | nil => rfl
    | cons y l' => simp at e
  | cons x l ih =>
    cases l' with
    | nil => simp at e
    | cons y l' =>
      simp only [List.map_cons, List.cons.injEq] at e
      have hx := h x (List.mem_cons_self _ _)
      have hy := h' y (List.mem_cons_self _ _)
      have hxy : x = y := by
        have e1 := e.1
        simp only [dash, hx.1, hx.2.1, hy.1, hy.2.1, false_or, or_false] at e1
        by_cases cx : x = ':' <;> by_cases cy : y = ':' <;> simp [cx, cy] at e1
        · rw [cx, cy]
        · exact absurd e1.symm hy.2.2
        · exact absurd e1 hx.2.2
        · exact e1
      rw [hxy, ih l' (fun z hz => h z (List.mem_cons_of_mem _ hz))
        (fun z hz => h' z (List.mem_cons_of_mem _ hz)) e.2]

theorem split_first (a : Char) (xs xs' ys ys' : List Char) (h : a ∉ xs) (h' : a ∉ xs')
    (e : xs ++ a :: ys = xs' ++ a :: ys') : xs = xs' ∧ ys = ys' := by
  induction xs generalizing xs' with
  | nil =>
    cases xs' with
    | nil => simpa using e
    | cons y xs' =>
      simp only [List.nil_append, List.cons_append, List.cons.injEq] at e
      exact absurd (e.1 ▸ List.mem_cons_self _ _) h'
  | cons x xs ih =>
    cases xs' with
    | nil =>
      simp only [List.nil_append, List.cons_append, List.cons.injEq] at e
      exact absurd (e.1 ▸ List.mem_cons_self _ _) h
    | cons y xs' =>
      simp only [List.cons_append, List.cons.injEq] at e
      obtain ⟨r1, r2⟩ := ih xs' (fun hm => h (List.mem_cons_of_mem _ hm))
        (fun hm => h' (List.mem_cons_of_mem _ hm)) e.2
      exact ⟨by rw [e.1, r1], r2⟩

theorem split_last (a : Char) (xs xs' ys ys' : List Char) (h : a ∉ ys) (h' : a ∉ ys')
    (e : xs ++ a :: ys = xs' ++ a :: ys') : xs = xs' ∧ ys = ys' := by
  have e' : ys.reverse ++ a :: xs.reverse = ys'.reverse ++ a :: xs'.reverse := by
    have := congrArg List.reverse e
    simpa using this
  obtain ⟨r1, r2⟩ := split_first a ys.reverse ys'.reverse xs.reverse xs'.reverse
    (by simpa using h) (by simpa using h') e'
  exact ⟨List.reverse_injective r2, List.reverse_injective r1⟩

theorem hasAdjacent_map_dash (l : List Char) (h : hasAdjacent ':' l = true) :
    hasAdjacent '-' (l.map dash) = true := by
  induction l with
  | nil => simp [hasAdjacent] at h
  | cons x l ih =>
    cases l with
    | nil => simp [hasAdjacent] at h
    | cons y r =>
      simp only [hasAdjacent, Bool.or_eq_true, Bool.and_eq_true, decide_eq_true_eq] at h
      simp only [List.map_cons, hasAdjacent, Bool.or_eq_true, Bool.and_eq_true,
        decide_eq_true_eq]
      rcases h with ⟨rfl, rfl⟩ | h
      · left; exact ⟨by decide, by decide⟩
      · right; exact ih h

theorem hasAdjacent_append (c : Char) (xs ys : List Char) (h : hasAdjacent c xs = true) :
    hasAdjacent c (xs ++ ys) = true := by
  induction xs with
  | nil => simp [hasAdjacent] at h
  | cons x l ih =>
    cases l with
    | nil => simp [hasAdjacent] at h
    | cons y r =>
      simp only [hasAdjacent, Bool.or_eq_true, Bool.and_eq_true, decide_eq_true_eq] at h
      simp only [List.cons_append, hasAdjacent, Bool.or_eq_true, Bool.and_eq_true,
        decide_eq_true_eq]
      rcases h with h | h
      · left; exact h
      · right; exact ih h

theorem hasAdjacent_not_mem (c : Char) (l : List Char) (h : c ∉ l) :
    hasAdjacent c l = false := by
  induction l with
  | nil => rfl
  | cons x l ih =>
    cases l with
    | nil => rfl
    | cons y r =>
      have hx : x ≠ c := fun e => h (e ▸ List.mem_cons_self _ _)
      simp only [hasAdjacent, hx, decide_False, Bool.false_and, Bool.false_or]
      exact ih (fun hm => h (List.mem_cons_of_mem _ hm))

/-- A field without `c`, then `c`, then a rest that does not begin with `c`: neighbouring
occurrences of `c` can only be in the rest. -/
theorem hasAdjacent_field (c : Char) (f r : List Char) (h : c ∉ f) (hr : r.head? ≠ some c) :
    hasAdjacent c (f ++ c :: r) = hasAdjacent c r := by
  induction f with
  | nil =>
    cases r with
    | nil => rfl
    | cons y r =>
      have hy : y ≠ c := fun e => hr (by simp [e])
      simp [hasAdjacent, hy]
  | cons x f ih =>
    have hx : x ≠ c := fun e => h (e ▸ List.mem_cons_self _ _)
    have ih' := ih (fun hm => h (List.mem_cons_of_mem _ hm))
    cases f with
    | nil =>
      simp only [List.nil_append] at ih' ⊢
      simp only [List.cons_append, List.nil_append, hasAdjacent, hx, decide_False,
        Bool.false_and, Bool.false_or]
      exact ih'
    | cons y f =>
      simp only [List.cons_append, hasAdjacent, hx, decide_False, Bool.false_and,
        Bool.false_or]
      exact ih'

theorem head?_field (c : Char) (f r : List Char) (h : c ∉ f) (hne : f ≠ []) :
    (f ++ r).head? ≠ some c := by
  cases f with
  | nil => exact absurd rfl hne
  | cons x f =>
    have hx : x ≠ c := fun e => h (e ▸ List.mem_cons_self _ _)
    simp [hx]

theorem nameChars_v4 (a b c d n : List Char) (ha : plain a) (hb : plain b) (hc : plain c)
    (hd : plain d) (hn : plain n) :
    nameChars (a ++ '.' :: (b ++ '.' :: (c ++ '.' :: (d ++ '/' :: n))))
      = a ++ '-' :: (b ++ '-' :: (c ++ '-' :: (d ++ '-' :: n))) := by
  obtain ⟨a1, a2, a3, _⟩ := plain_count a ha
  obtain ⟨b1, b2, b3, _⟩ := plain_count b hb
  obtain ⟨c1, c2, c3, _⟩ := plain_count c hc
  obtain ⟨d1, d2, d3, _⟩ := plain_count d hd
  obtain ⟨n1, n2, n3, _⟩ := plain_count n hn
  unfold nameChars
  rw [replaceChars3_eq_map _ (by simp [List.count_cons, a1, b1, c1, d1, n1])
    (by simp [List.count_cons, a2, b2, c2, d2, n2])
    (by simp [List.count_cons, a3, b3, c3, d3, n3])]
  simp only [List.map_append, List.map_cons, dash_plain a ha, dash_plain b hb, dash_plain c hc,
    dash_plain d hd, dash_plain n hn]
  rfl

theorem nameChars_v6 (body n : List Char) (hb : colonBody body) (hn : plain n)
    (h7 : body.count ':' ≤ 7) :
    nameChars (body ++ '/' :: n) = body.map dash ++ '-' :: n := by
  obtain ⟨b1, b3, _, _⟩ := colonBody_count body hb
  obtain ⟨n1, n2, n3, _⟩ := plain_count n hn
  unfold nameChars
  rw [replaceChars3_eq_map _ (by simp [List.count_cons, b1, n1])
    (by simpa [List.count_cons, n2] using h7)
    (by simp [List.count_cons, b3, n3])]
  simp only [List.map_append, List.map_cons, dash_plain n hn]
  rfl

theorem v4_name_not_v6_name (s t : List Char) (hs : V4Shape s) (ht : V6Shape t) :
    nameChars s ≠ nameChars t := by
  obtain ⟨a, b, c, d, n, rfl, ha, hb, hc, hd, hn, nb, nc, nd, _⟩ := hs
  obtain ⟨body, m, rfl, hbody, hm, h7, hshape⟩ := ht
  rw [nameChars_v4 a b c d n ha hb hc hd hn, nameChars_v6 body m hbody hm h7]
  intro e
  obtain ⟨_, _, _, a4⟩ := plain_count a ha
  obtain ⟨_, _, _, b4⟩ := plain_count b hb
  obtain ⟨_, _, _, c4⟩ := plain_count c hc
  obtain ⟨_, _, _, d4⟩ := plain_count d hd
  obtain ⟨_, _, _, n4⟩ := plain_count n hn
  obtain ⟨_, _, _, m4⟩ := plain_count m hm
  obtain ⟨_, _, bcount, _⟩ := colonBody_count body hbody
  have hcount := congrArg (List.count '-') e
  simp [List.count_cons, a4, b4, c4, d4, n4, m4, bcount] at hcount
  have hadj : hasAdjacent ':' body = true := by
    rcases hshape with h | h
    · omega
    · exact h
  have h6 : hasAdjacent '-' (body.map dash ++ '-' :: m) = true :=
    hasAdjacent_append _ _ _ (hasAdjacent_map_dash body hadj)
  rw [← e] at h6
  rw [hasAdjacent_field '-' a _ (plain_not_mem a ha).2.2.2
      (head?_field '-' b _ (plain_not_mem b hb).2.2.2 nb),
    hasAdjacent_field '-' b _ (plain_not_mem b hb).2.2.2
      (head?_field '-' c _ (plain_not_mem c hc).2.2.2 nc),
    hasAdjacent_field '-' c _ (plain_not_mem c hc).2.2.2
      (head?_field '-' d _ (plain_not_mem d hd).2.2.2 nd)] at h6
  have hn0 : n.head? ≠ some '-' := by
    intro hh
    exact (plain_not_mem n hn).2.2.2 (List.mem_of_mem_head? hh)
  rw [hasAdjacent_field '-' d n (plain_not_mem d hd).2.2.2 hn0,
    hasAdjacent_not_mem '-' n (plain_not_mem n hn).2.2.2] at h6
  exact Bool.false_ne_true h6

theorem v4_name_inj (s t : List Char) (hs : V4Shape s) (ht : V4Shape t)
    (e : nameChars s = nameChars t) : s = t := by
  obtain ⟨a, b, c, d, n, rfl, ha, hb, hc, hd, hn, _⟩ := hs
  obtain ⟨a', b', c', d', n', rfl, ha', hb', hc', hd', hn', _⟩ := ht
  rw [nameChars_v4 a b c d n ha hb hc hd hn, nameChars_v4 a' b' c' d' n' ha' hb' hc' hd' hn'] at e
  obtain ⟨ea, e⟩ := split_first '-' _ _ _ _ (plain_not_mem a ha).2.2.2
    (plain_not_mem a' ha').2.2.2 e
  obtain ⟨eb, e⟩ := split_first '-' _ _ _ _ (plain_not_mem b hb).2.2.2
    (plain_not_mem b' hb').2.2.2 e
  obtain ⟨ec, e⟩ := split_first '-' _ _ _ _ (plain_not_mem c hc).2.2.2
    (plain_not_mem c' hc').2.2.2 e
  obtain ⟨ed, en⟩ := split_first '-' _ _ _ _ (plain_not_mem d hd).2.2.2
    (plain_not_mem d' hd').2.2.2 e
  rw [ea, eb, ec, ed, en]

theorem v6_name_inj (s t : List Char) (hs : V6Shape s) (ht : V6Shape t)
    (e : nameChars s = nameChars t) : s = t := by
  obtain ⟨body, n, rfl, hb, hn, h7, _⟩ := hs
  obtain ⟨body', n', rfl, hb', hn', h7', _⟩ := ht
  rw [nameChars_v6 body n hb hn h7, nameChars_v6 body' n' hb' hn' h7'] at e
  obtain ⟨eb, en⟩ := split_last '-' _ _ _ _ (plain_not_mem n hn).2.2.2
    (plain_not_mem n' hn').2.2.2 e
  rw [dash_injOn body body' hb hb' eb, en]

theorem name_inj_shapes (s t : List Char) (hs : V4Shape s ∨ V6Shape s)
    (ht : V4Shape t ∨ V6Shape t) (e : nameChars s = nameChars t) : s = t := by
  rcases hs with hs | hs <;> rcases ht with ht | ht
  · exact v4_name_inj s t hs ht e
  · exact absurd e (v4_name_not_v6_name s t hs ht)
  · exact absurd e.symm (v4_name_not_v6_name t s ht hs)
  · exact v6_name_inj s t hs ht e

theorem splitFirst_spec (sep : Char) (l a r : List Char) (h : splitFirst sep l = some (a, r)) :
    l = a ++ sep :: r ∧ sep ∉ a := by
  induction l generalizing a with
  | nil => simp [splitFirst] at h
  | cons c s ih =>
    simp only [splitFirst] at h
    by_cases hc : c = sep
    · simp only [hc, if_true, Option.some.injEq, Prod.mk.injEq] at h
      obtain ⟨rfl, rfl⟩ := h
      simp [hc]
    · simp only [hc, if_false] at h
      split at h
      · cases h
      · rename_i a' r' heq
        simp only [Option.some.injEq, Prod.mk.injEq] at h
        obtain ⟨rfl, rfl⟩ := h
        obtain ⟨e, hm⟩ := ih a' heq
        refine ⟨by rw [e]; rfl, ?_⟩
        intro hmem
        rcases List.mem_cons.mp hmem with h1 | h1
        · exact hc h1.symm
        · exact hm h1

theorem isDigit_plain (c : Char) (h : c.isDigit = true) :
    c ≠ '.' ∧ c ≠ ':' ∧ c ≠ '/' ∧ c ≠ '-' := by
  refine ⟨?_, ?_, ?_, ?_⟩ <;> (rintro rfl; revert h; decide)

theorem isHexChar_plain (c : Char) (h : isHexChar c = true) :
    c ≠ '.' ∧ c ≠ ':' ∧ c ≠ '/' ∧ c ≠ '-' := by
  refine ⟨?_, ?_, ?_, ?_⟩ <;> (rintro rfl; revert h; decide)

theorem isDecimal_plain (f : List Char) (h : isDecimal f = true) : plain f ∧ f ≠ [] := by
  simp only [isDecimal, Bool.and_eq_true, Bool.not_eq_true', List.all_eq_true] at h
  refine ⟨fun x hx => isDigit_plain x (h.2 x hx), ?_⟩
  rintro rfl
  simp at h

theorem isIPv4CIDR_shape (s : String) (h : isIPv4CIDR s = true) : V4Shape s.data := by
  unfold isIPv4CIDR at h
  split at h
  · cases h
  · rename_i a r1 e1
    split at h
    · cases h
    · rename_i b r2 e2
      split at h
      · cases h
      · rename_i c r3 e3
        split at h
        · cases h
        · rename_i d n e4
          simp only [Bool.and_eq_true] at h
          obtain ⟨⟨⟨⟨ha, hb⟩, hc⟩, hd⟩, hn⟩ := h
          obtain ⟨q1, _⟩ := splitFirst_spec _ _ _ _ e1
          obtain ⟨q2, _⟩ := splitFirst_spec _ _ _ _ e2
          obtain ⟨q3, _⟩ := splitFirst_spec _ _ _ _ e3
          obtain ⟨q4, _⟩ := splitFirst_spec _ _ _ _ e4
          refine ⟨a, b, c, d, n, ?_, (isDecimal_plain a ha).1, (isDecimal_plain b hb).1,
            (isDecimal_plain c hc).1, (isDecimal_plain d hd).1, (isDecimal_plain n hn).1,
            (isDecimal_plain b hb).2, (isDecimal_plain c hc).2, (isDecimal_plain d hd).2,
            (isDecimal_plain n hn).2⟩
          rw [q1, q2, q3, q4]

theorem isIPv6CIDR_shape (s : String) (h : isIPv6CIDR s = true) : V6Shape s.data := by
  unfold isIPv6CIDR at h
  split at h
  · cases h
  · rename_i body n e
    simp only [Bool.and_eq_true, Bool.or_eq_true, decide_eq_true_eq, List.all_eq_true,
      beq_iff_eq] at h
    obtain ⟨⟨⟨hn, hall⟩, h7⟩, hshape⟩ := h
    obtain ⟨q, hslash⟩ := splitFirst_spec _ _ _ _ e
    refine ⟨body, n, q, ?_, (isDecimal_plain n hn).1, h7, hshape⟩
    intro x hx
    rcases hall x hx with hh | hh
    · have := isHexChar_plain x hh
      exact ⟨this.1, this.2.2.1, this.2.2.2⟩
    · subst hh
      exact ⟨by decide, by decide, by decide⟩

/-- C7: two canonical CIDR strings (IPv4 `a.b.c.d/n`, or IPv6 colon-hex groups with or without
a `::` compression and `/n`; the two may be of different families) that are different have
different names. -/
theorem cidrToName_injective (c1 c2 : IPNet) (h1 : isCanonicalCIDR c1.String = true)
    (h2 : isCanonicalCIDR c2.String = true) (hne : c1.String ≠ c2.String) :
    cidrToName c1 ≠ cidrToName c2 := by
  intro e
  apply hne
  have shape : ∀ s : String, isCanonicalCIDR s = true → V4Shape s.data ∨ V6Shape s.data := by
    intro s hs
    simp only [isCanonicalCIDR, Bool.or_eq_true] at hs
    exact hs.imp (isIPv4CIDR_shape s) (isIPv6CIDR_shape s)
  have ed : nameChars c1.String.data = nameChars c2.String.data := by
    have := congrArg String.data e
    simpa only [cidrToName_data] using this
  exact String.ext (name_inj_shapes _ _ (shape _ h1) (shape _ h2) ed)

theorem cidrToName_injective_witness :
    cidrToName ⟨"1.2.3.4/5"⟩ ≠ cidrToName ⟨"1:2:3::4/5"⟩ ∧
    cidrToName ⟨"10.0.0.0/24"⟩ ≠ cidrToName ⟨"10.0.0.0/25"⟩ ∧
    cidrToName ⟨"fd00::/8"⟩ ≠ cidrToName ⟨"fd00:0:0:1:2:3:4:5/128"⟩ :=
  ⟨cidrToName_injective ⟨"1.2.3.4/5"⟩ ⟨"1:2:3::4/5"⟩ (by decide) (by decide) (by decide),
   cidrToName_injective ⟨"10.0.0.0/24"⟩ ⟨"10.0.0.0/25"⟩ (by decide) (by decide) (by decide),
   cidrToName_injective ⟨"fd00::/8"⟩ ⟨"fd00:0:0:1:2:3:4:5/128"⟩ (by decide) (by decide)
     (by decide)⟩

/-- Lower-casing a string whose letters, lower-cased one by one in ASCII, spell a text without
the code points U+0130 and U+212A gives that text. -/
theorem ToLower_of_ascii_spelling (mode : String) (lit : List Char)
    (h130 : Char.ofNat 0x130 ∉ lit) (h212A : Char.ofNat 0x212A ∉ lit)
    (h : mode.data.map Char.toLower = lit) : ToLower mode = String.mk lit := by
  unfold ToLower
  congr 1
  rw [← h]
  apply List.map_congr_left
  intro c hc
  have hm : c.toLower ∈ lit := h ▸ List.mem_map_of_mem _ hc
  unfold unicodeToLower
  by_cases c1 : c = Char.ofNat 0x130
  · subst c1
    exact absurd hm h130
  · by_cases c2 : c = Char.ofNat 0x212A
    · subst c2
      exact absurd hm h212A
    · simp only [c1, c2, if_false]

/-- C8: `convertIPIPMode` returns, for every mode text and tunnel interface, one of the three
constants: `Never` exactly when the interface is empty, `CrossSubnet` exactly when the
interface is not empty and the mode text is case-insensitively `cross-subnet`, and `Always`
exactly in the remaining case.  In particular every spelling of `cross-subnet` in upper and
lower case ASCII letters gives `CrossSubnet` when the interface is not empty. -/
theorem convertIPIPMode_spec (mode : ipip.Mode) (ipipInterface : String) :
    (convertIPIPMode mode ipipInterface = apiv3.IPIPMode.IPIPModeNever ∨
      convertIPIPMode mode ipipInterface = apiv3.IPIPMode.IPIPModeCrossSubnet ∨
      convertIPIPMode mode ipipInterface = apiv3.IPIPMode.IPIPModeAlways) ∧
    (convertIPIPMode mode ipipInterface = apiv3.IPIPMode.IPIPModeNever ↔ ipipInterface = "") ∧
    (convertIPIPMode mode ipipInterface = apiv3.IPIPMode.IPIPModeCrossSubnet ↔
      (ipipInterface ≠ "" ∧ equalsIgnoreCase mode "cross-subnet")) ∧
    (convertIPIPMode mode ipipInterface = apiv3.IPIPMode.IPIPModeAlways ↔
      (ipipInterface ≠ "" ∧ ¬ equalsIgnoreCase mode "cross-subnet")) ∧
    (ipipInterface ≠ "" → mode.data.map Char.toLower = "cross-subnet".data →
      convertIPIPMode mode ipipInterface = apiv3.IPIPMode.IPIPModeCrossSubnet) ∧
    (ipipInterface ≠ "" → mode.data.map Char.toLower ≠ "cross-subnet".data →
      (∀ c ∈ mode.data, c.val < 128) →
      convertIPIPMode mode ipipInterface = apiv3.IPIPMode.IPIPModeAlways) := by
  have hc : ToLower "cross-subnet" = "cross-subnet" := by decide
  refine ⟨?_, ?_, ?_, ?_, ?_, ?_⟩
  · simp only [convertIPIPMode]
    by_cases h1 : ipipInterface = "" <;> by_cases h2 : ToLower mode = "cross-subnet" <;>
      simp [h1, h2]
  · simp only [convertIPIPMode]
    by_cases h1 : ipipInterface = "" <;> by_cases h2 : ToLower mode = "cross-subnet" <;>
      simp [h1, h2]
  · simp only [equalsIgnoreCase, hc, convertIPIPMode]
    by_cases h1 : ipipInterface = "" <;> by_cases h2 : ToLower mode = "cross-subnet" <;>
      simp [h1, h2]
  · simp only [equalsIgnoreCase, hc, convertIPIPMode]
    by_cases h1 : ipipInterface = "" <;> by_cases h2 : ToLower mode = "cross-subnet" <;>
      simp [h1, h2]
  · intro h1 h
    have h2 : ToLower mode = "cross-subnet" :=
      ToLower_of_ascii_spelling mode _ (by decide) (by decide) h
    simp [convertIPIPMode, h1, h2]
  · intro h1 h hascii
    have h2 : ToLower mode ≠ "cross-subnet" := by
      intro e
      apply h
      have e' : mode.data.map unicodeToLower = "cross-subnet".data := congrArg String.data e
      rw [← e']
      apply List.map_congr_left
      intro c hm
      have hlt := hascii c hm
      unfold unicodeToLower
      have c1 : c ≠ Char.ofNat 0x130 := by
        rintro rfl
        exact absurd hlt (by decide)
      have c2 : c ≠ Char.ofNat 0x212A := by
        rintro rfl
        exact absurd hlt (by decide)
      simp only [c1, c2, if_false]
    simp [convertIPIPMode, h1, h2]

theorem convertIPIPMode_spec_witness :
    convertIPIPMode "Cross-Subnet" "tunl0" = apiv3.IPIPMode.IPIPModeCrossSubnet ∧
    convertIPIPMode "CROSS-SUBNET" "tunl0" = apiv3.IPIPMode.IPIPModeCrossSubnet ∧
    convertIPIPMode "cross-subnet" "tunl0" = apiv3.IPIPMode.IPIPModeCrossSubnet ∧
    convertIPIPMode "Always" "tunl0" = apiv3.IPIPMode.IPIPModeAlways ∧
    convertIPIPMode "" "tunl0" = apiv3.IPIPMode.IPIPModeAlways ∧
    convertIPIPMode "cross_subnet" "tunl0" = apiv3.IPIPMode.IPIPModeAlways ∧
    convertIPIPMode "Cross-Subnet" "" = apiv3.IPIPMode.IPIPModeNever :=
  ⟨(convertIPIPMode_spec "Cross-Subnet" "tunl0").2.2.2.2.1 (by decide) (by decide),
   (convertIPIPMode_spec "CROSS-SUBNET" "tunl0").2.2.1.2 ⟨by decide, by decide⟩,
   (convertIPIPMode_spec "cross-subnet" "tunl0").2.2.2.2.1 (by decide) (by decide),
   (convertIPIPMode_spec "Always" "tunl0").2.2.2.2.2 (by decide) (by decide) (by decide),
   (convertIPIPMode_spec "" "tunl0").2.2.2.1.2 ⟨by decide, by decide⟩,
   (convertIPIPMode_spec "cross_subnet" "tunl0").2.2.2.2.2 (by decide) (by decide) (by decide),
   (convertIPIPMode_spec "Cross-Subnet" "").2.1.2 rfl⟩

/-- C9: for every v1 IP pool the two converter steps give a v3 pool whose IPIP mode is `Never`
when the pool has no IPIP section or the section is not enabled (whatever its mode text),
`CrossSubnet` when the section is enabled with a mode text that is case-insensitively
`cross-subnet`, and `Always` when it is enabled with any other mode text. -/
theorem migrate_IPIPMode (p : apiv1.IPPool) :
    ∃ ipp : apiv3.IPPool, migrate (Resource.ippool p) = Outcome.ok ipp ∧
      (p.Spec.IPIP = none → ipp.Spec.IPIPMode = apiv3.IPIPMode.IPIPModeNever) ∧
      (∀ cfg : apiv1.IPIPConfiguration, p.Spec.IPIP = some cfg →
        (cfg.Enabled = false → ipp.Spec.IPIPMode = apiv3.IPIPMode.IPIPModeNever) ∧
        (cfg.Enabled = true → equalsIgnoreCase cfg.Mode "cross-subnet" →
          ipp.Spec.IPIPMode = apiv3.IPIPMode.IPIPModeCrossSubnet) ∧
        (cfg.Enabled = true → ¬ equalsIgnoreCase cfg.Mode "cross-subnet" →
          ipp.Spec.IPIPMode = apiv3.IPIPMode.IPIPModeAlways)) := by
  have hc : ToLower "cross-subnet" = "cross-subnet" := by decide
  have ht : ("tunl0" : String) ≠ "" := by decide
  rcases p with ⟨md, ⟨ipipCfg, nat, dis⟩⟩
  cases ipipCfg with
  | none =>
    refine ⟨_, rfl, ?_, ?_⟩
    · intro _; rfl
    · intro cfg h; cases h
  | some c =>
    rcases c with ⟨en, m⟩
    refine ⟨_, rfl, ?_, ?_⟩
    · intro h; cases h
    · intro cfg h
      cases h
      simp only [equalsIgnoreCase, hc]
      cases en
      · simp [convertIPIPMode]
      · refine ⟨?_, ?_, ?_⟩
        · intro h
          cases h
        · intro _ hm
          simp [convertIPIPMode, ht, hm]
        · intro _ hm
          simp [convertIPIPMode, ht, hm]

theorem migrate_IPIPMode_witness :
    (∃ ipp : apiv3.IPPool,
      migrate (Resource.ippool ⟨⟨⟨"10.0.0.0/24"⟩⟩, ⟨some ⟨true, "Cross-Subnet"⟩, true, false⟩⟩)
        = Outcome.ok ipp ∧ ipp.Spec.IPIPMode = apiv3.IPIPMode.IPIPModeCrossSubnet) ∧
    (∃ ipp : apiv3.IPPool,
      migrate (Resource.ippool ⟨⟨⟨"10.0.0.0/24"⟩⟩, ⟨some ⟨true, ""⟩, true, false⟩⟩)
        = Outcome.ok ipp ∧ ipp.Spec.IPIPMode = apiv3.IPIPMode.IPIPModeAlways) ∧
    (∃ ipp : apiv3.IPPool,
      migrate (Resource.ippool ⟨⟨⟨"10.0.0.0/24"⟩⟩, ⟨some ⟨false, "cross-subnet"⟩, true, false⟩⟩)
        = Outcome.ok ipp ∧ ipp.Spec.IPIPMode = apiv3.IPIPMode.IPIPModeNever) ∧
    (∃ ipp : apiv3.IPPool,
      migrate (Resource.ippool ⟨⟨⟨"10.0.0.0/24"⟩⟩, ⟨none, true, false⟩⟩)
        = Outcome.ok ipp ∧ ipp.Spec.IPIPMode = apiv3.IPIPMode.IPIPModeNever) := by
  refine ⟨?_, ?_, ?_, ?_⟩
  · obtain ⟨ipp, h, _, hcfg⟩ :=
      migrate_IPIPMode ⟨⟨⟨"10.0.0.0/24"⟩⟩, ⟨some ⟨true, "Cross-Subnet"⟩, true, false⟩⟩
    exact ⟨ipp, h, (hcfg ⟨true, "Cross-Subnet"⟩ rfl).2.1 rfl (by decide)⟩
  · obtain ⟨ipp, h, _, hcfg⟩ :=
      migrate_IPIPMode ⟨⟨⟨"10.0.0.0/24"⟩⟩, ⟨some ⟨true, ""⟩, true, false⟩⟩
    exact ⟨ipp, h, (hcfg ⟨true, ""⟩ rfl).2.2 rfl (by decide)⟩
  · obtain ⟨ipp, h, _, hcfg⟩ :=
      migrate_IPIPMode ⟨⟨⟨"10.0.0.0/24"⟩⟩, ⟨some ⟨false, "cross-subnet"⟩, true, false⟩⟩
    exact ⟨ipp, h, (hcfg ⟨false, "cross-subnet"⟩ rfl).1 rfl⟩
  · obtain ⟨ipp, h, hnone, _⟩ :=
      migrate_IPIPMode ⟨⟨⟨"10.0.0.0/24"⟩⟩, ⟨none, true, false⟩⟩
    exact ⟨ipp, h, hnone rfl⟩

/-- C10: for every v1 IP pool both converter steps return without an error, and the v3 pool
they give has the name `cidrToName` of the pool's CIDR, the CIDR string as `Spec.CIDR`, and
the pool's `NATOutgoing` and `Disabled`; the pool `10.0.0.0/24` with IPIP enabled in mode
`cross-subnet`, NAT-outgoing and not disabled becomes the pool named `10-0-0-0-24` with mode
`CrossSubnet`, NAT-outgoing and not disabled. -/
theorem migrate_spec :
    (∀ p : apiv1.IPPool, ∃ (kvp : model.KVPair) (ipp : apiv3.IPPool),
      IPPool.APIV1ToBackendV1 (Resource.ippool p) = Outcome.ok kvp ∧
      IPPool.BackendV1ToAPIV3 kvp = Outcome.ok ipp ∧
      migrate (Resource.ippool p) = Outcome.ok ipp ∧
      ipp.Name = cidrToName p.Metadata.CIDR ∧
      ipp.Spec.CIDR = p.Metadata.CIDR.String ∧
      ipp.Spec.NATOutgoing = p.Spec.NATOutgoing ∧
      ipp.Spec.Disabled = p.Spec.Disabled) ∧
    migrate (Resource.ippool
        { Metadata := { CIDR := ⟨"10.0.0.0/24"⟩ },
          Spec := { IPIP := some { Enabled := true, Mode := "cross-subnet" },
                    NATOutgoing := true, Disabled := false } })
      = Outcome.ok
        { Name := "10-0-0-0-24",
          Spec := { CIDR := "10.0.0.0/24", IPIPMode := apiv3.IPIPMode.IPIPModeCrossSubnet,
                    NATOutgoing := true, Disabled := false } } := by
  refine ⟨?_, by decide⟩
  intro p
  rcases p with ⟨md, ⟨ipipCfg, nat, dis⟩⟩
  cases ipipCfg <;> exact ⟨_, _, rfl, rfl, rfl, rfl, rfl, rfl, rfl⟩

/-! ## Error paths, the rule table, and further properties of the transforms -/

/-- C11: `BackendV1ToAPIV3` returns an error, and with it no resource, when the value of the
pair is not a backend `IPPool`, and a resource without an error when it is one; so it returns
an error exactly when the value is of the wrong kind, and it never panics. -/
theorem BackendV1ToAPIV3_error_iff (kvp : model.KVPair) :
    (∀ kind : String, kvp.Value = model.Value.other kind →
      IPPool.BackendV1ToAPIV3 kvp = Outcome.error "value is not a valid IPPool resource Value") ∧
    (∀ pool : model.IPPool, kvp.Value = model.Value.ippool pool →
      ∃ ipp : apiv3.IPPool, IPPool.BackendV1ToAPIV3 kvp = Outcome.ok ipp) ∧
    ((∃ msg : String, IPPool.BackendV1ToAPIV3 kvp = Outcome.error msg) ↔
      (∃ kind : String, kvp.Value = model.Value.other kind)) ∧
    (∀ msg : String, IPPool.BackendV1ToAPIV3 kvp ≠ Outcome.panics msg) := by
  rcases kvp with ⟨key, value⟩
  cases value with
  | ippool pool =>
    refine ⟨?_, ?_, ?_, ?_⟩
    · intro kind h; cases h
    · intro pool' _; exact ⟨_, rfl⟩
    · constructor
      · rintro ⟨msg, h⟩
        simp [IPPool.BackendV1ToAPIV3] at h
      · rintro ⟨kind, h⟩; cases h
    · intro msg h
      simp [IPPool.BackendV1ToAPIV3] at h
  | other kind =>
    refine ⟨?_, ?_, ?_, ?_⟩
    · intro _ _; rfl
    · intro pool h; cases h
    · exact ⟨fun _ => ⟨kind, rfl⟩, fun _ => ⟨_, rfl⟩⟩
    · intro msg h
      simp [IPPool.BackendV1ToAPIV3] at h

theorem BackendV1ToAPIV3_error_iff_witness :
    IPPool.BackendV1ToAPIV3 ⟨⟨⟨"10.0.0.0/24"⟩⟩, model.Value.other "*model.BGPPeer"⟩
      = Outcome.error "value is not a valid IPPool resource Value" ∧
    (∃ ipp : apiv3.IPPool,
      IPPool.BackendV1ToAPIV3
        ⟨⟨⟨"10.0.0.0/24"⟩⟩, model.Value.ippool ⟨⟨"10.0.0.0/24"⟩, "tunl0", "", true, true, false⟩⟩
        = Outcome.ok ipp) :=
  ⟨(BackendV1ToAPIV3_error_iff
      ⟨⟨⟨"10.0.0.0/24"⟩⟩, model.Value.other "*model.BGPPeer"⟩).1 "*model.BGPPeer" rfl,
   (BackendV1ToAPIV3_error_iff
      ⟨⟨⟨"10.0.0.0/24"⟩⟩,
        model.Value.ippool ⟨⟨"10.0.0.0/24"⟩, "tunl0", "", true, true, false⟩⟩).2.1 _ rfl⟩

/-- C12, as the code behaves: for a resource that is not a v1 `IPPool` the step
`APIV1ToBackendV1` panics on its type assertion; it returns neither an error nor a pair. -/
theorem APIV1ToBackendV1_wrong_kind_panics :
    (∀ kind : String, ∃ msg : String,
      IPPool.APIV1ToBackendV1 (Resource.other kind) = Outcome.panics msg) ∧
    (∀ kind msg : String, IPPool.APIV1ToBackendV1 (Resource.other kind) ≠ Outcome.error msg) ∧
    IPPool.APIV1ToBackendV1 (Resource.other "*v1.BGPPeer")
      = Outcome.panics "interface conversion: unversioned.Resource is *v1.BGPPeer, not *v1.IPPool" ∧
    migrate (Resource.other "*v1.BGPPeer")
      = Outcome.panics "interface conversion: unversioned.Resource is *v1.BGPPeer, not *v1.IPPool" := by
  refine ⟨fun kind => ⟨_, rfl⟩, ?_, by decide, by decide⟩
  intro kind msg h
  simp [IPPool.APIV1ToBackendV1] at h

/-- C13, as stated, fails: the wire tag `as_num` is declared and has no rule. -/
theorem rules_missing_as_num :
    ¬ (∀ tag ∈ BGPConfigurationSpec.tags, (NewBGPConfigUpdateProcessor.rule tag).isSome = true) := by
  decide

/-- C13, amended: a wire tag that `BGPConfigurationSpec` declares has a rule in the table
exactly when it is not `as_num`. -/
theorem rules_cover_tags_except_as_num :
    ∀ tag ∈ BGPConfigurationSpec.tags,
      ((NewBGPConfigUpdateProcessor.rule tag).isSome = true ↔ tag ≠ "as_num") := by
  decide

theorem rules_cover_tags_except_as_num_witness :
    (NewBGPConfigUpdateProcessor.rule "listen_port").isSome = true ∧
    ¬ (NewBGPConfigUpdateProcessor.rule "as_num").isSome = true :=
  ⟨(rules_cover_tags_except_as_num "listen_port" (by decide)).2 (by decide),
   fun h => (rules_cover_tags_except_as_num "as_num" (by decide)).1 h rfl⟩

/-- C14: the results of `logLevelToBirdLogLevel` are exactly the four strings that are the
empty string, `debug`, `info` and `none` (each of them is a result, they are pairwise
different, and nothing else is a result), and the transform leaves its own result as it is. -/
theorem logLevelToBirdLogLevel_idempotent :
    (∀ s : String, logLevelToBirdLogLevel s = "" ∨ logLevelToBirdLogLevel s = "debug" ∨
      logLevelToBirdLogLevel s = "info" ∨ logLevelToBirdLogLevel s = "none") ∧
    (∀ r : String, (∃ s : String, logLevelToBirdLogLevel s = r) ↔
      (r = "" ∨ r = "debug" ∨ r = "info" ∨ r = "none")) ∧
    logLevelToBirdLogLevel "" = "" ∧ logLevelToBirdLogLevel "Debug" = "debug" ∧
    logLevelToBirdLogLevel "INFO" = "info" ∧ logLevelToBirdLogLevel "WARN" = "none" ∧
    ["", "debug", "info", "none"].Nodup ∧
    (∀ s : String,
      logLevelToBirdLogLevel (logLevelToBirdLogLevel s) = logLevelToBirdLogLevel s) := by
  have h0 : logLevelToBirdLogLevel "" = "" := by decide
  have h1 : logLevelToBirdLogLevel "debug" = "debug" := by decide
  have h2 : logLevelToBirdLogLevel "info" = "info" := by decide
  have h3 : logLevelToBirdLogLevel "none" = "none" := by decide
  have hr : ∀ s : String, logLevelToBirdLogLevel s = "" ∨ logLevelToBirdLogLevel s = "debug" ∨
      logLevelToBirdLogLevel s = "info" ∨ logLevelToBirdLogLevel s = "none" := by
    intro s
    have e : logLevelToBirdLogLevel s =
        if ToLower s = "" ∨ ToLower s = "debug" ∨ ToLower s = "info" then ToLower s
        else "none" := rfl
    by_cases c : ToLower s = "" ∨ ToLower s = "debug" ∨ ToLower s = "info"
    · rw [e, if_pos c]
      rcases c with c | c | c
      · exact Or.inl c
      · exact Or.inr (Or.inl c)
      · exact Or.inr (Or.inr (Or.inl c))
    · rw [e, if_neg c]
      exact Or.inr (Or.inr (Or.inr rfl))
  refine ⟨hr, ?_, h0, by decide, by decide, by decide, by decide, ?_⟩
  · intro r
    constructor
    · rintro ⟨s, rfl⟩
      exact hr s
    · rintro (h | h | h | h) <;> subst h
      · exact ⟨"", h0⟩
      · exact ⟨"debug", h1⟩
      · exact ⟨"info", h2⟩
      · exact ⟨"none", h3⟩
  · intro s
    rcases hr s with h | h | h | h <;> rw [h]
    · exact h0
    · exact h1
    · exact h2
    · exact h3

theorem logLevelToBirdLogLevel_idempotent_witness :
    (∃ s : String, logLevelToBirdLogLevel s = "debug") ∧
    (∃ s : String, logLevelToBirdLogLevel s = "none") ∧
    ¬ (∃ s : String, logLevelToBirdLogLevel s = "warn") ∧
    logLevelToBirdLogLevel (logLevelToBirdLogLevel "Info") = logLevelToBirdLogLevel "Info" :=
  ⟨(logLevelToBirdLogLevel_idempotent.2.1 "debug").2 (Or.inr (Or.inl rfl)),
   (logLevelToBirdLogLevel_idempotent.2.1 "none").2 (Or.inr (Or.inr (Or.inr rfl))),
   fun h => absurd ((logLevelToBirdLogLevel_idempotent.2.1 "warn").1 h) (by decide),
   logLevelToBirdLogLevel_idempotent.2.2.2.2.2.2.2 "Info"⟩

theorem dash_ne_separator (c : Char) : dash c ≠ '.' ∧ dash c ≠ ':' ∧ dash c ≠ '/' := by
  unfold dash
  by_cases h : c = '.' ∨ c = ':' ∨ c = '/'
  · simp only [h, if_true]
    decide
  · simp only [h, if_false]
    exact ⟨fun e => h (Or.inl e), fun e => h (Or.inr (Or.inl e)), fun e => h (Or.inr (Or.inr e))⟩

/-- C15: for a CIDR string with at most three dots, seven colons and one slash, the name has
no dot, no colon and no slash. -/
theorem cidrToName_no_separator (cidr : IPNet) (h1 : cidr.String.data.count '.' ≤ 3)
    (h2 : cidr.String.data.count ':' ≤ 7) (h3 : cidr.String.data.count '/' ≤ 1) :
    '.' ∉ (cidrToName cidr).data ∧ ':' ∉ (cidrToName cidr).data ∧
      '/' ∉ (cidrToName cidr).data := by
  rw [cidrToName_data, replaceChars3_eq_map _ h1 h2 h3]
  refine ⟨?_, ?_, ?_⟩ <;> intro hm <;> obtain ⟨c, _, hc⟩ := List.mem_map.mp hm
  · exact (dash_ne_separator c).1 hc
  · exact (dash_ne_separator c).2.1 hc
  · exact (dash_ne_separator c).2.2 hc

theorem cidrToName_no_separator_witness :
    '.' ∉ (cidrToName ⟨"2001:db8:0:1:2:3:4:5/64"⟩).data ∧
    ':' ∉ (cidrToName ⟨"2001:db8:0:1:2:3:4:5/64"⟩).data ∧
    '/' ∉ (cidrToName ⟨"2001:db8:0:1:2:3:4:5/64"⟩).data :=
  cidrToName_no_separator ⟨"2001:db8:0:1:2:3:4:5/64"⟩ (by decide) (by decide) (by decide)

/-- C17: the pair that `APIV1ToBackendV1` makes of a v1 IP pool has the pool's CIDR in its key
and in its value, `IPAM` the negation of `Disabled`, `Masquerade` the pool's `NATOutgoing`,
the interface `tunl0` exactly when the pool has an IPIP section that is enabled and the empty
interface otherwise, and the mode of the IPIP section, or the empty mode without one. -/
theorem APIV1ToBackendV1_fields (p : apiv1.IPPool) :
    ∃ (kvp : model.KVPair) (pool : model.IPPool),
      IPPool.APIV1ToBackendV1 (Resource.ippool p) = Outcome.ok kvp ∧
      kvp.Value = model.Value.ippool pool ∧
      kvp.Key.CIDR = pool.CIDR ∧ pool.CIDR = p.Metadata.CIDR ∧
      pool.IPAM = !pool.Disabled ∧ pool.Disabled = p.Spec.Disabled ∧
      pool.Masquerade = p.Spec.NATOutgoing ∧
      (pool.IPIPInterface = "tunl0" ↔
        ∃ cfg : apiv1.IPIPConfiguration, p.Spec.IPIP = some cfg ∧ cfg.Enabled = true) ∧
      (pool.IPIPInterface = "tunl0" ∨ pool.IPIPInterface = "") ∧
      (∀ cfg : apiv1.IPIPConfiguration, p.Spec.IPIP = some cfg → pool.IPIPMode = cfg.Mode) ∧
      (p.Spec.IPIP = none → pool.IPIPMode = "") := by
  have ht : ("" : String) ≠ "tunl0" := by decide
  rcases p with ⟨md, ⟨ipipCfg, nat, dis⟩⟩
  cases ipipCfg with
  | none =>
    refine ⟨_, _, rfl, rfl, rfl, rfl, rfl, rfl, rfl, ?_, Or.inr rfl, ?_, fun _ => rfl⟩
    · constructor
      · intro h; exact absurd h ht
      · rintro ⟨cfg, h, _⟩; cases h
    · intro cfg h; cases h
  | some c =>
    rcases c with ⟨en, m⟩
    cases en
    · refine ⟨_, _, rfl, rfl, rfl, rfl, rfl, rfl, rfl, ?_, Or.inr rfl, ?_, ?_⟩
      · constructor
        · intro h; exact absurd h ht
        · rintro ⟨cfg, h, he⟩
          cases h
          cases he
      · intro cfg h; cases h; rfl
      · intro h; cases h
    · refine ⟨_, _, rfl, rfl, rfl, rfl, rfl, rfl, rfl, ?_, Or.inl rfl, ?_, ?_⟩
      · exact ⟨fun _ => ⟨_, rfl, rfl⟩, fun _ => rfl⟩
      · intro cfg h; cases h; rfl
      · intro h; cases h

/-- C18: every key of the rule table is a wire tag that `BGPConfigurationSpec` declares, the
keys are pairwise distinct, and so every entry of the table is the rule found under its key. -/
theorem rules_keys_declared :
    (∀ key ∈ NewBGPConfigUpdateProcessor.keys, key ∈ BGPConfigurationSpec.tags) ∧
    NewBGPConfigUpdateProcessor.keys.Nodup ∧
    (∀ entry ∈ NewBGPConfigUpdateProcessor.rules,
      NewBGPConfigUpdateProcessor.rule entry.1 = some entry.2) := by
  decide

theorem rules_keys_declared_witness :
    "prefix_advertisements" ∈ BGPConfigurationSpec.tags ∧
    NewBGPConfigUpdateProcessor.rule "prefix_advertisements"
      = some ConfigFieldValueToV1ModelValue.prefixAdvertisementsToString :=
  ⟨rules_keys_declared.1 "prefix_advertisements" (by decide),
   rules_keys_declared.2.2
     ("prefix_advertisements", ConfigFieldValueToV1ModelValue.prefixAdvertisementsToString)
     (by decide)⟩

theorem splitChars_not_mem (sep : Char) (a : List Char) (h : sep ∉ a) :
    splitChars sep a = [a] := by
  induction a with
  | nil => rfl
  | cons c a ih =>
    have hc : c ≠ sep := fun e => h (e ▸ List.mem_cons_self _ _)
    simp only [splitChars, hc, if_false, ih (fun hm => h (List.mem_cons_of_mem _ hm))]

theorem splitChars_append (sep : Char) (a r : List Char) (h : sep ∉ a) :
    splitChars sep (a ++ sep :: r) = a :: splitChars sep r := by
  induction a with
  | nil => simp [splitChars]
  | cons c a ih =>
    have hc : c ≠ sep := fun e => h (e ▸ List.mem_cons_self _ _)
    have ih' := ih (fun hm => h (List.mem_cons_of_mem _ hm))
    rw [List.cons_append]
    simp only [splitChars, hc, if_false]
    rw [ih']

theorem intercalate_cons_cons (sep a b : String) (l : List String) :
    sep.intercalate (a :: b :: l) = a ++ sep ++ sep.intercalate (b :: l) := by
  simp only [String.intercalate, intercalate_go_eq_foldl, List.foldl_cons]
  exact foldl_sep_append sep (a ++ sep) l b

/-- Splitting a comma-joined list of strings without commas gives the list back. -/
theorem Split_intercalate (l : List String) (hl : l ≠ []) (h : ∀ s ∈ l, ',' ∉ s.data) :
    Split (",".intercalate l) ',' = l := by
  induction l with
  | nil => exact absurd rfl hl
  | cons a l ih =>
    cases l with
    | nil =>
      simp only [String.intercalate, String.intercalate.go, Split,
        splitChars_not_mem ',' a.data (h a (List.mem_cons_self _ _)), List.map_cons, List.map_nil]
    | cons b l =>
      have ih' := ih (by simp) (fun s hs => h s (List.mem_cons_of_mem _ hs))
      have hd : (",".intercalate (a :: b :: l)).data
          = a.data ++ ',' :: (",".intercalate (b :: l)).data := by
        rw [intercalate_cons_cons]
        simp [String.data_append]
      unfold Split at ih' ⊢
      rw [hd, splitChars_append ',' _ _ (h a (List.mem_cons_self _ _)), List.map_cons, ih']

/-- C16: for a list of blocks that is not empty and whose CIDR fields have no comma, splitting
the result of either CIDR list transform at the commas gives the CIDR fields of the blocks, in
order and as many as there are blocks. -/
theorem svcIpsToString_split :
    (∀ l : List ServiceExternalIPBlock, l ≠ [] → (∀ b ∈ l, ',' ∉ b.CIDR.data) →
      ∃ out : String, svcExternalIpsToString l = some out ∧
        Split out ',' = l.map (fun b => b.CIDR) ∧ (Split out ',').length = l.length) ∧
    (∀ l : List ServiceClusterIPBlock, l ≠ [] → (∀ b ∈ l, ',' ∉ b.CIDR.data) →
      ∃ out : String, svcClusterIpsToString l = some out ∧
        Split out ',' = l.map (fun b => b.CIDR) ∧ (Split out ',').length = l.length) := by
  constructor
  · intro l hl hc
    have hlen : l.length ≠ 0 := by simpa using hl
    have hs : Split (",".intercalate (l.map (fun b => b.CIDR))) ',' = l.map (fun b => b.CIDR) :=
      Split_intercalate _ (by simpa using hl) (by
        intro s hs
        obtain ⟨b, hb, rfl⟩ := List.mem_map.mp hs
        exact hc b hb)
    refine ⟨",".intercalate (l.map (fun b => b.CIDR)), ?_, hs, by rw [hs, List.length_map]⟩
    simp [svcExternalIpsToString, hlen,
      foldl_append_singleton (fun b : ServiceExternalIPBlock => b.CIDR), Join_eq_intercalate]
  · intro l hl hc
    have hlen : l.length ≠ 0 := by simpa using hl
    have hs : Split (",".intercalate (l.map (fun b => b.CIDR))) ',' = l.map (fun b => b.CIDR) :=
      Split_intercalate _ (by simpa using hl) (by
        intro s hs
        obtain ⟨b, hb, rfl⟩ := List.mem_map.mp hs
        exact hc b hb)
    refine ⟨",".intercalate (l.map (fun b => b.CIDR)), ?_, hs, by rw [hs, List.length_map]⟩
    simp [svcClusterIpsToString, hlen,
      foldl_append_singleton (fun b : ServiceClusterIPBlock => b.CIDR), Join_eq_intercalate]

theorem svcIpsToString_split_witness :
    (∃ out : String,
      svcExternalIpsToString [⟨"10.0.0.0/24"⟩, ⟨"fd00::/8"⟩, ⟨"192.168.0.0/16"⟩] = some out ∧
      Split out ',' = ["10.0.0.0/24", "fd00::/8", "192.168.0.0/16"]) ∧
    (∃ out : String,
      svcClusterIpsToString [⟨"10.96.0.0/12"⟩] = some out ∧ Split out ',' = ["10.96.0.0/12"]) := by
  constructor
  · obtain ⟨out, h1, h2, _⟩ := svcIpsToString_split.1
      [⟨"10.0.0.0/24"⟩, ⟨"fd00::/8"⟩, ⟨"192.168.0.0/16"⟩] (by simp) (by decide)
    exact ⟨out, h1, h2⟩
  · obtain ⟨out, h1, h2, _⟩ := svcIpsToString_split.2 [⟨"10.96.0.0/12"⟩] (by simp) (by decide)
    exact ⟨out, h1, h2⟩

end Calico
